import Mathlib

/-!
Verification of the bytefreezer-proxy ingest-batch-forward-spool pipeline.

Each section embeds one part of the Go source as executable Lean
definitions and proves (or refutes) the specification claims about it.
Machine integers (`int`, `int64`) are modelled as `Int`/`Nat` (no value in
the modelled code paths approaches word size), byte slices as `List Nat`
with bytes below 256, times as `Nat` tick counts, and the filesystem as
association lists from file names to contents.
-/

set_option maxHeartbeats 1000000

namespace ByteFreezerProxy

/-! ## HTTP forwarder

`HTTPForwarder.ForwardBatch` (src/services/forwarder.go, lines 33-100).
The retry loop `for attempt := 0; attempt <= f.config.Receiver.RetryCount;
attempt++` performs one `httpClient.Do` per iteration.  We model the
environment by the sequence of outcomes successive HTTP attempts would
produce: element `i` is what `Do` returns on attempt `i`.  The Go loop
never looks past `RetryCount + 1` elements. -/

/-- Outcome of one `httpClient.Do` call: a transport-level failure
(`err != nil`) or a response with a status code. -/
inductive HTTPAttempt where
  | transportFail
  | response (statusCode : Nat)
deriving DecidableEq, Repr

/-- `resp.StatusCode >= 200 && resp.StatusCode < 300` : return nil. -/
def attemptIsOk : HTTPAttempt → Bool
  | .response c => 200 ≤ c && c < 300
  | .transportFail => false

/-- `resp.StatusCode >= 400 && resp.StatusCode < 500` : break, no retry. -/
def attemptIsTerminal : HTTPAttempt → Bool
  | .response c => 400 ≤ c && c < 500
  | .transportFail => false

/-- Everything else (transport errors, 5xx, 3xx, 1xx) loops to the next
attempt. -/
def attemptIsRetryable (a : HTTPAttempt) : Bool :=
  !attemptIsOk a && !attemptIsTerminal a

/-- Result of `ForwardBatch`: `nil` or an error wrapping the last observed
failure (`lastErr` in the source; `none` when no attempt ran). -/
inductive ForwardOutcome where
  | ok
  | fwdFailure (lastErr : Option HTTPAttempt)
deriving DecidableEq, Repr

/-- The retry loop of `ForwardBatch`, src/services/forwarder.go lines
67-99, together with the number of `httpClient.Do` calls it makes.  The
input list holds the outcome each successive attempt would yield; the
list is as long as the loop bound (`RetryCount + 1`), and `lastErr`
threads the `lastErr` variable of the source. -/
def forwardLoop : List HTTPAttempt → Option HTTPAttempt → ForwardOutcome × Nat
  | [], lastErr => (.fwdFailure lastErr, 0)
  | a :: rest, _ =>
    if attemptIsOk a then (.ok, 1)
    else if attemptIsTerminal a then (.fwdFailure (some a), 1)
    else ((forwardLoop rest (some a)).1, (forwardLoop rest (some a)).2 + 1)

/-- `ForwardBatch` on the outcome sequence of its attempts (`lastErr`
starts out nil). -/
def ForwardBatch (outcomes : List HTTPAttempt) : ForwardOutcome × Nat :=
  forwardLoop outcomes none

/-! ## UDP listener payload sanitization

`Listener.processMessageWithContext` (src/udp/listener.go, lines 199-229
and its identical duplicate at 652-682).  Datagram bytes are `List Nat`
(each element < 256).  `bytes.TrimSpace` trims Unicode whitespace from
both ends; for byte values below 0x80 this is exactly the ASCII
whitespace set `'\t' '\n' '\v' '\f' '\r' ' '`, which we model (the
repository feeds it raw datagram bytes). -/

/-- ASCII whitespace as recognized by `unicode.IsSpace` on bytes < 0x80. -/
def goIsSpaceByte (b : Nat) : Bool :=
  b = 9 || b = 10 || b = 11 || b = 12 || b = 13 || b = 32

/-- The cutset of `bytes.Trim(payload, "\x08\x00")`. -/
def isCutNulBS (b : Nat) : Bool := b = 0 || b = 8

def trimLeftWhile (p : Nat → Bool) (l : List Nat) : List Nat := l.dropWhile p

def trimRightWhile (p : Nat → Bool) (l : List Nat) : List Nat :=
  (l.reverse.dropWhile p).reverse

/-- `bytes.TrimSpace(data)` followed by `bytes.Trim(payload, "\x08\x00")`
(src/udp/listener.go lines 201-202). -/
def sanitizePayload (data : List Nat) : List Nat :=
  trimRightWhile isCutNulBS (trimLeftWhile isCutNulBS
    (trimRightWhile goIsSpaceByte (trimLeftWhile goIsSpaceByte data)))

/-- `domain.UDPMessage` as constructed by the listener: sanitized payload
bytes, the remote address string, the receive timestamp, and the
listener's tenant/dataset. -/
structure UDPMessage where
  data : List Nat
  source : String
  timestamp : Nat
  tenantID : String
  datasetID : String
deriving DecidableEq, Repr

/-- The counters of `domain.ProxyStats` touched by the listener path. -/
structure ProxyStats where
  udpMessagesReceived : Nat
  udpMessageErrors : Nat
  bytesReceived : Int
  lastActivity : Nat
deriving DecidableEq, Repr

/-- Capacity of the listener-to-batcher channel
(`make(chan *domain.UDPMessage, 1000)`, src/udp/listener.go line 70). -/
def batchChannelCapacity : Nat := 1000

/-- `Listener.processMessageWithContext`: sanitize, drop empties silently,
then non-blocking enqueue (drop and count an error when the channel is
full).  The channel is the queue of pending messages. -/
def processMessageWithContext (data : List Nat) (fromAddr : String)
    (tenantID datasetID : String) (now : Nat)
    (channel : List UDPMessage) (stats : ProxyStats) :
    List UDPMessage × ProxyStats :=
  let payload := sanitizePayload data
  if payload.length = 0 then (channel, stats)
  else if channel.length < batchChannelCapacity then
    (channel ++ [⟨payload, fromAddr, now, tenantID, datasetID⟩],
     { stats with
        udpMessagesReceived := stats.udpMessagesReceived + 1
        bytesReceived := stats.bytesReceived + payload.length
        lastActivity := now })
  else
    (channel, { stats with udpMessageErrors := stats.udpMessageErrors + 1 })

/-! ## Management API: masking of sensitive configuration values

`maskSensitiveValue` (src/unnamed/part_006, lines 243-251).  Go indexes
bytes of the string; values are modelled as character lists, which agree
on the ASCII identifiers and tokens the spec is about. -/

/-- `maskSensitiveValue` from the source: empty stays empty, values of
byte length at most 8 are fully masked, longer values keep their first
and last four bytes around a literal `***`. -/
def maskSensitiveValue (value : List Char) : List Char :=
  if value = [] then []
  else if value.length ≤ 8 then ['*', '*', '*']
  else value.take 4 ++ ['*', '*', '*'] ++ value.drop (value.length - 4)

/-! ## Batcher

`Forwarder.Start` (src/udp/listener.go, lines 728-809: the per-key map
variant the claims cite).  The Go map `batches` keyed by
`"<tenant>:<dataset>"` is an association list; `sendBatch` calls are the
second component of each step's result. -/

def alistLookup {α : Type} (k : String) : List (String × α) → Option α
  | [] => none
  | (k', v) :: rest => if k' = k then some v else alistLookup k rest

def alistInsert {α : Type} (k : String) (v : α) :
    List (String × α) → List (String × α)
  | [] => [(k, v)]
  | (k', v') :: rest =>
    if k' = k then (k, v) :: rest else (k', v') :: alistInsert k v rest

def alistErase {α : Type} (k : String) : List (String × α) → List (String × α)
  | [] => []
  | (k', v') :: rest => if k' = k then rest else (k', v') :: alistErase k rest

/-- `domain.DataBatch` as accumulated by the batcher. -/
structure DataBatch where
  id : String
  tenantID : String
  datasetID : String
  messages : List UDPMessage
  lineCount : Int
  totalBytes : Int
  createdAt : Nat
deriving DecidableEq, Repr

/-- `batchKey := fmt.Sprintf("%s:%s", msg.TenantID, msg.DatasetID)`. -/
def batchKeyOf (msg : UDPMessage) : String :=
  msg.tenantID ++ ":" ++ msg.datasetID

/-- The open batch the message joins: the existing one for its key, or a
fresh batch (lines 761-771 of src/udp/listener.go). -/
def pendingBatchFor (nowNanos : Nat) (batches : List (String × DataBatch))
    (msg : UDPMessage) : DataBatch :=
  match alistLookup (batchKeyOf msg) batches with
  | some b => b
  | none =>
    { id := toString nowNanos ++ "_" ++ batchKeyOf msg
      tenantID := msg.tenantID
      datasetID := msg.datasetID
      messages := []
      lineCount := 0
      totalBytes := 0
      createdAt := nowNanos }

/-- Lines 773-776: append the message, bump `LineCount` and `TotalBytes`. -/
def updatedBatch (nowNanos : Nat) (batches : List (String × DataBatch))
    (msg : UDPMessage) : DataBatch :=
  let b := pendingBatchFor nowNanos batches msg
  { b with
      messages := b.messages ++ [msg]
      lineCount := b.lineCount + 1
      totalBytes := b.totalBytes + (msg.data.length : Int) }

/-- Lines 778-785: `shouldSend` — a positive `MaxBatchLines` reached, or a
positive `MaxBatchBytes` reached. -/
def shouldSendBatch (maxBatchLines maxBatchBytes : Int) (b : DataBatch) : Bool :=
  (decide (0 < maxBatchLines) && decide (maxBatchLines ≤ b.lineCount)) ||
  (decide (0 < maxBatchBytes) && decide (maxBatchBytes ≤ b.totalBytes))

/-- One message-arrival step of `Forwarder.Start` (lines 746-794): the
new open-batch map and the list of batches handed to `sendBatch`. -/
def forwarderOnMessage (maxBatchLines maxBatchBytes : Int) (nowNanos : Nat)
    (batches : List (String × DataBatch)) (msg : UDPMessage) :
    List (String × DataBatch) × List DataBatch :=
  let batch := updatedBatch nowNanos batches msg
  if shouldSendBatch maxBatchLines maxBatchBytes batch then
    (alistErase (batchKeyOf msg) batches, [batch])
  else
    (alistInsert (batchKeyOf msg) batch batches, [])

/-- The timer-fire branch of `Forwarder.Start` (lines 796-807): every
batch with at least one message is sent and deleted from the map. -/
def forwarderOnTimer (batches : List (String × DataBatch)) :
    List (String × DataBatch) × List DataBatch :=
  (batches.filter (fun kv => kv.2.messages.isEmpty),
   (batches.filter (fun kv => !kv.2.messages.isEmpty)).map Prod.snd)

/-- An open batch is strictly below every configured limit. -/
def batchBelowLimits (maxBatchLines maxBatchBytes : Int) (b : DataBatch) : Prop :=
  (0 < maxBatchLines → b.lineCount < maxBatchLines) ∧
  (0 < maxBatchBytes → b.totalBytes < maxBatchBytes)

/-! ## Spool

`SpoolingService` (src/services/forwarder.go, lines 119-558).  The spool
directory is modelled by two association lists, payload files
(`<id>.ndjson` to bytes) and metadata files (`<id>.meta` to the decoded
`SpooledFile` JSON); `currentSize` and the `sync.RWMutex` are explicit
state.  Every directory mutation is recorded as an event tagged with
whether the mutex was held when it happened, and alert and HTTP calls are
recorded as events too.  File reads and writes themselves always succeed
in the model (the claims under test do not concern I/O failures); the
mutex is modelled precisely: Go's `sync.RWMutex` is not reentrant, so
`Lock()` while the same goroutine already holds the write lock blocks
forever. -/

/-- `SpooledFile` (src/services/forwarder.go lines 135-146): the decoded
`.meta` JSON document. -/
structure SpooledFile where
  id : String
  tenantID : String
  datasetID : String
  filename : String
  size : Int
  createdAt : Nat
  lastRetry : Nat
  retryCount : Int
  status : String
  failureReason : String
deriving DecidableEq, Repr

/-- The spool directory plus the service's runtime state. -/
structure SpoolState where
  dataFiles : List (String × List Nat)
  metaFiles : List (String × SpooledFile)
  currentSize : Int
  locked : Bool
deriving DecidableEq, Repr

/-- Observable actions of the spooling service.  Mutation events carry
whether the spool mutex was held at that moment. -/
inductive SpoolEvent where
  | writeData (name : String) (lockHeld : Bool)
  | writeMeta (name : String) (lockHeld : Bool)
  | removeData (name : String) (lockHeld : Bool)
  | removeMeta (name : String) (lockHeld : Bool)
  | addSize (amount : Int) (lockHeld : Bool)
  | subSize (amount : Int) (lockHeld : Bool)
  | alertSent (severity : String) (fileID : String)
  | httpForward (batchID : String)
deriving DecidableEq, Repr

/-- `getSpooledFiles` (lines 427-456): decode every `.meta` file. -/
def getSpooledFiles (st : SpoolState) : List SpooledFile :=
  st.metaFiles.map Prod.snd

/-- `removeSpooledFile` (lines 478-496): delete the payload and meta files
(`os.Remove`, absence tolerated) and decrement `currentSize` by the
metadata's `Size` unconditionally. -/
def removeSpooledFile (st : SpoolState) (file : SpooledFile) :
    SpoolState × List SpoolEvent :=
  ({ st with
      dataFiles := alistErase file.filename st.dataFiles
      metaFiles := alistErase (file.id ++ ".meta") st.metaFiles
      currentSize := st.currentSize - file.size },
   [.removeData file.filename st.locked,
    .removeMeta (file.id ++ ".meta") st.locked,
    .subSize file.size st.locked])

/-- `updateRetryMetadata` (lines 459-475): bump `RetryCount`, stamp
`LastRetry`, set status `"retrying"`, rewrite the meta file. -/
def updateRetryMetadata (now : Nat) (st : SpoolState) (file : SpooledFile)
    (failureReason : String) : SpoolState × List SpoolEvent :=
  let updated := { file with
    retryCount := file.retryCount + 1
    lastRetry := now
    failureReason := failureReason
    status := "retrying" }
  ({ st with
      metaFiles := alistInsert (file.id ++ ".meta") updated st.metaFiles },
   [.writeMeta (file.id ++ ".meta") st.locked])

/-- `markAsPermanentlyFailed` (lines 499-516): set status `"failed"` and
rewrite the meta file; both files stay in place. -/
def markAsPermanentlyFailed (now : Nat) (st : SpoolState) (file : SpooledFile) :
    SpoolState × List SpoolEvent :=
  let updated := { file with
    status := "failed"
    lastRetry := now
    failureReason := "Exceeded maximum retry attempts - manual recovery required" }
  ({ st with
      metaFiles := alistInsert (file.id ++ ".meta") updated st.metaFiles },
   [.writeMeta (file.id ++ ".meta") st.locked])

/-- The body of the per-file loop of `processRetries` (lines 308-367).
`forwardResult file` is the outcome `forwarder.ForwardBatch` would have
for the batch rebuilt from this record: `none` for success, `some msg`
for an error with text `msg`.  Note that none of these branches touches
the spool mutex. -/
def processOneSpooledFile (retryAttempts : Int) (retryInterval : Nat)
    (alertSink : Bool) (forwardResult : SpooledFile → Option String)
    (now : Nat) (st : SpoolState) (file : SpooledFile) :
    SpoolState × List SpoolEvent :=
  if file.status = "failed" then (st, [])
  else if now - file.lastRetry < retryInterval then (st, [])
  else if retryAttempts ≤ file.retryCount then
    let alertEv := if alertSink then [SpoolEvent.alertSent "high" file.id] else []
    let r := markAsPermanentlyFailed now st file
    (r.1, alertEv ++ r.2)
  else
    match alistLookup file.filename st.dataFiles with
    | none => (st, [])
    | some _ =>
      match forwardResult file with
      | none =>
        let r := removeSpooledFile st file
        (r.1, .httpForward file.id :: r.2)
      | some msg =>
        let r := updateRetryMetadata now st file msg
        (r.1, .httpForward file.id :: r.2)

/-- One fold step of the retry loop, accumulating events. -/
def retryStep (retryAttempts : Int) (retryInterval : Nat) (alertSink : Bool)
    (forwardResult : SpooledFile → Option String) (now : Nat)
    (acc : SpoolState × List SpoolEvent) (file : SpooledFile) :
    SpoolState × List SpoolEvent :=
  let r := processOneSpooledFile retryAttempts retryInterval alertSink
    forwardResult now acc.1 file
  (r.1, acc.2 ++ r.2)

/-- `processRetries` (lines 291-372): snapshot the `.meta` files, then
process each.  The retry worker never acquires the spool mutex. -/
def processRetries (retryAttempts : Int) (retryInterval : Nat)
    (alertSink : Bool) (forwardResult : SpooledFile → Option String)
    (now : Nat) (st : SpoolState) : SpoolState × List SpoolEvent :=
  (getSpooledFiles st).foldl
    (retryStep retryAttempts retryInterval alertSink forwardResult now) (st, [])

/-- Insertion into a list sorted by `CreatedAt` ascending. -/
def insertByCreated (f : SpooledFile) : List SpooledFile → List SpooledFile
  | [] => [f]
  | g :: rest =>
    if f.createdAt < g.createdAt then f :: g :: rest
    else g :: insertByCreated f rest

/-- `sort.Slice(files, ...CreatedAt.Before...)` (lines 402-404). -/
def sortByCreatedAt (l : List SpooledFile) : List SpooledFile :=
  l.foldr insertByCreated []

/-- The sweep inside `cleanupOldFiles` (lines 396-423), after the lock is
held: remove every record with `RetryCount >= retryAttempts` or older
than `maxAge = retryAttempts * retryInterval * 2`. -/
def cleanupSweep (retryAttempts : Int) (retryInterval : Nat) (now : Nat)
    (st : SpoolState) : SpoolState × List SpoolEvent :=
  let files := sortByCreatedAt (getSpooledFiles st)
  let maxAge : Int := retryAttempts * retryInterval * 2
  files.foldl
    (fun acc file =>
      if retryAttempts ≤ file.retryCount ∨ maxAge < ((now - file.createdAt : Nat) : Int) then
        let r := removeSpooledFile acc.1 file
        (r.1, acc.2 ++ r.2)
      else acc)
    (st, [])

/-- `cleanupOldFiles` (lines 392-424) as called by the cleanup worker:
`s.mutex.Lock()` first — which blocks forever (`none`) if this goroutine
already holds the lock — then sweep, then unlock. -/
def cleanupOldFiles (retryAttempts : Int) (retryInterval : Nat) (now : Nat)
    (st : SpoolState) : Option (SpoolState × List SpoolEvent) :=
  if st.locked then none
  else
    let r := cleanupSweep retryAttempts retryInterval now { st with locked := true }
    some ({ r.1 with locked := false }, r.2)

/-- Result of `SpoolData`: nil, an error return, or no return at all
(the goroutine deadlocks). -/
inductive SpoolDataResult where
  | ok
  | spoolFull
  | deadlock
deriving DecidableEq, Repr

/-- `SpoolData` (lines 203-271).  When spooling is disabled it returns nil
immediately.  Otherwise it takes the spool write lock, and when
`currentSize + len(data) > maxSize` it calls `s.cleanupOldFiles()` — whose
first statement is `s.mutex.Lock()` on the same non-reentrant
`sync.RWMutex` this goroutine is still holding, so the call never
returns: the model reports `deadlock` (the recheck and `spoolFull`
return that follow in the source are unreachable).  Within budget it
writes the payload file, then the meta file with status `"pending"` and
`RetryCount 0`, and increments `currentSize` by `len(data)`.  File writes
succeed in the model (`json.Marshal` of `SpooledFile` cannot fail). -/
def SpoolData (enabled : Bool) (maxSize : Int) (tenantID datasetID : String)
    (data : List Nat) (failureReason : String) (nowNanos : Nat)
    (st : SpoolState) : SpoolDataResult × SpoolState × List SpoolEvent :=
  if !enabled then (.ok, st, [])
  else
    let st₁ : SpoolState := { st with locked := true }
    let dataSize : Int := data.length
    if maxSize < st₁.currentSize + dataSize then
      (.deadlock, st₁, [])
    else
      let id := toString nowNanos ++ "_" ++ tenantID ++ "_" ++ datasetID
      let filename := id ++ ".ndjson"
      let metadata : SpooledFile :=
        { id := id
          tenantID := tenantID
          datasetID := datasetID
          filename := filename
          size := dataSize
          createdAt := nowNanos
          lastRetry := 0
          retryCount := 0
          status := "pending"
          failureReason := failureReason }
      (.ok,
       { dataFiles := alistInsert filename data st₁.dataFiles
         metaFiles := alistInsert (id ++ ".meta") metadata st₁.metaFiles
         currentSize := st₁.currentSize + dataSize
         locked := false },
       [.writeData filename true, .writeMeta (id ++ ".meta") true,
        .addSize dataSize true])

/-- Well-formedness of a spool directory: each meta file is stored under
`<id>.meta`, names its payload file `<id>.ndjson`, and meta file names
are unique (a directory cannot hold two files of one name). -/
def SpoolWF (st : SpoolState) : Prop :=
  (∀ p ∈ st.metaFiles,
    p.1 = p.2.id ++ ".meta" ∧ p.2.filename = p.2.id ++ ".ndjson") ∧
  (st.metaFiles.map Prod.fst).Nodup

/-! ## NDJSON encoder

`Forwarder.sendBatch` (src/udp/listener.go, lines 817-845): each message
payload is `json.Unmarshal`led; on success the value is re-`Marshal`led
(canonical form: objects become key-sorted maps, duplicate keys keep the
last value, whitespace is dropped, strings are re-escaped); otherwise a
three-field envelope object is marshalled.  We model the `encoding/json`
fragment the proxy exercises: payloads are character lists (UTF-8
decoding is outside the model), and JSON numbers are modelled as
arbitrary-precision integers — Go decodes numbers into `float64` and
re-serializes them with the shortest round-tripping decimal
representation, a floating-point stdlib guarantee that stands outside
this embedding, and the model's parser rejects fraction and exponent
forms instead of rounding them. -/

/-- A JSON value as `json.Unmarshal` produces it into `interface{}`:
objects are maps, modelled as key-sorted, duplicate-free association
lists (the canonical form `json.Marshal` emits). -/
inductive Json where
  | null
  | bool (b : Bool)
  | num (n : Int)
  | str (s : List Char)
  | arr (elems : List Json)
  | obj (members : List (List Char × Json))

/-- Decimal digit character. -/
def digitChar (n : Nat) : Char := Char.ofNat (48 + n)

/-- Lowercase hex digit character, as in the encoder's `hex` table. -/
def hexDigitChar (n : Nat) : Char :=
  if n < 10 then Char.ofNat (48 + n) else Char.ofNat (87 + n)

/-- Decimal digits of a natural number, most significant first. -/
def natToChars (n : Nat) : List Char :=
  if _h : n < 10 then [digitChar n]
  else natToChars (n / 10) ++ [digitChar (n % 10)]
decreasing_by exact Nat.div_lt_self (by omega) (by omega)

/-- `strconv`-style integer formatting. -/
def intToChars (n : Int) : List Char :=
  if n < 0 then '-' :: natToChars n.natAbs else natToChars n.natAbs

/-- One character of Go's JSON string escaping (`encodeState.string` with
HTML escaping on, the `json.Marshal` default): `\" \\ \n \r \t`, other
control bytes as `\u00xx`, `< > &` as `< > &`, and
U+2028/U+2029 as `   `. -/
def escapeChar (c : Char) : List Char :=
  if c = '"' then ['\\', '"']
  else if c = '\\' then ['\\', '\\']
  else if c = '\n' then ['\\', 'n']
  else if c = '\r' then ['\\', 'r']
  else if c = '\t' then ['\\', 't']
  else if c.toNat < 32 then
    ['\\', 'u', '0', '0', hexDigitChar (c.toNat / 16), hexDigitChar (c.toNat % 16)]
  else if c = '<' then ['\\', 'u', '0', '0', '3', 'c']
  else if c = '>' then ['\\', 'u', '0', '0', '3', 'e']
  else if c = '&' then ['\\', 'u', '0', '0', '2', '6']
  else if c.toNat = 0x2028 then ['\\', 'u', '2', '0', '2', '8']
  else if c.toNat = 0x2029 then ['\\', 'u', '2', '0', '2', '9']
  else [c]

/-- Escape a whole string body. -/
def escapeList (s : List Char) : List Char :=
  s.foldr (fun c acc => escapeChar c ++ acc) []

mutual

/-- `json.Marshal` of a decoded value: the canonical re-serialization. -/
def serialize : Json → List Char
  | .null => ['n', 'u', 'l', 'l']
  | .bool b => if b then ['t', 'r', 'u', 'e'] else ['f', 'a', 'l', 's', 'e']
  | .num n => intToChars n
  | .str s => '"' :: (escapeList s ++ ['"'])
  | .arr [] => ['[', ']']
  | .arr (x :: xs) => '[' :: (serialize x ++ serializeArrTail xs ++ [']'])
  | .obj [] => ['\x7b', '\x7d']
  | .obj (kv :: rest) =>
    '\x7b' :: (serializeMember kv ++ serializeObjTail rest ++ ['\x7d'])

def serializeArrTail : List Json → List Char
  | [] => []
  | x :: xs => ',' :: (serialize x ++ serializeArrTail xs)

def serializeMember : List Char × Json → List Char
  | (k, v) => '"' :: (escapeList k ++ ['"', ':'] ++ serialize v)

def serializeObjTail : List (List Char × Json) → List Char
  | [] => []
  | kv :: rest => ',' :: (serializeMember kv ++ serializeObjTail rest)

end

/-- Byte-wise (here: codepoint-wise) lexicographic order on strings, the
order `sort.Strings` gives `json.Marshal`'s map keys. -/
def charListLt : List Char → List Char → Bool
  | [], [] => false
  | [], _ :: _ => true
  | _ :: _, [] => false
  | a :: as, b :: bs =>
    if a.toNat < b.toNat then true
    else if b.toNat < a.toNat then false
    else charListLt as bs

/-- Insert a decoded object member into the key-sorted map; a duplicate
key keeps the later value, as for a Go map. -/
def insertMember (k : List Char) (v : Json) :
    List (List Char × Json) → List (List Char × Json)
  | [] => [(k, v)]
  | (k', v') :: rest =>
    if charListLt k k' then (k, v) :: (k', v') :: rest
    else if k = k' then (k, v) :: rest
    else (k', v') :: insertMember k v rest

mutual

/-- The invariant of values produced by decoding: object member lists are
strictly key-sorted at every level (Lean-side image of "objects are
maps"). -/
def jsonCanonical : Json → Bool
  | .null => true
  | .bool _ => true
  | .num _ => true
  | .str _ => true
  | .arr elems => jsonListCanonical elems
  | .obj members => jsonMembersSortedCanonical members

def jsonListCanonical : List Json → Bool
  | [] => true
  | x :: xs => jsonCanonical x && jsonListCanonical xs

def jsonMembersSortedCanonical : List (List Char × Json) → Bool
  | [] => true
  | kv :: rest =>
    (match rest with
     | [] => true
     | kv' :: _ => charListLt kv.1 kv'.1) &&
    jsonCanonical kv.2 && jsonMembersSortedCanonical rest

end

mutual

/-- Fuel bound for the mutually recursive parser. -/
def jsize : Json → Nat
  | .null => 1
  | .bool _ => 1
  | .num _ => 1
  | .str _ => 1
  | .arr l => 1 + jsizeElems l
  | .obj l => 1 + jsizeMembers l

def jsizeElems : List Json → Nat
  | [] => 1
  | x :: xs => 1 + jsize x + jsizeElems xs

def jsizeMembers : List (List Char × Json) → Nat
  | [] => 1
  | kv :: rest => 1 + jsize kv.2 + jsizeMembers rest

end

/-- JSON whitespace (RFC 8259: space, tab, LF, CR). -/
def isWsChar (c : Char) : Bool :=
  c = ' ' || c = '\t' || c = '\n' || c = '\r'

def skipWs : List Char → List Char
  | [] => []
  | c :: cs => if isWsChar c then skipWs cs else c :: cs

def isDigitChar (c : Char) : Bool := 48 ≤ c.toNat && c.toNat ≤ 57

/-- Hex digit value, accepting both cases as `encoding/json` does. -/
def hexVal (c : Char) : Option Nat :=
  if 48 ≤ c.toNat ∧ c.toNat ≤ 57 then some (c.toNat - 48)
  else if 97 ≤ c.toNat ∧ c.toNat ≤ 102 then some (c.toNat - 87)
  else if 65 ≤ c.toNat ∧ c.toNat ≤ 70 then some (c.toNat - 55)
  else none

/-- The Unicode replacement character, substituted for lone surrogates. -/
def replChar : Char := Char.ofNat 0xFFFD

/-- The standard simple escapes of a JSON string. -/
def simpleEscape (e : Char) : Option Char :=
  if e = '"' then some '"'
  else if e = '\\' then some '\\'
  else if e = '/' then some '/'
  else if e = 'b' then some (Char.ofNat 8)
  else if e = 'f' then some (Char.ofNat 12)
  else if e = 'n' then some '\n'
  else if e = 'r' then some '\r'
  else if e = 't' then some '\t'
  else none

/-- After a high surrogate `\u` escape: decode a following low-surrogate
escape into the combined character (consuming its 6 characters），or
substitute U+FFFD consuming nothing, as Go's `unquote` does. -/
def decodeLowSurrogate (cp : Nat) : List Char → Char × Nat
  | '\\' :: 'u' :: g1 :: g2 :: g3 :: g4 :: _ =>
    match hexVal g1, hexVal g2, hexVal g3, hexVal g4 with
    | some a, some b, some c, some d =>
      let cp₂ := a * 4096 + b * 256 + c * 16 + d
      if 0xDC00 ≤ cp₂ ∧ cp₂ ≤ 0xDFFF then
        (Char.ofNat (0x10000 + (cp - 0xD800) * 0x400 + (cp₂ - 0xDC00)), 6)
      else (replChar, 0)
    | _, _, _, _ => (replChar, 0)
  | _ => (replChar, 0)

/-- One classification step of the string scanner: the closing quote, an
unescaped character together with how many further input characters it
consumed beyond the first (`extra`), or a scan error. -/
inductive StrStep where
  | done (rest : List Char)
  | emit (c : Char) (extra : Nat)
  | fail

/-- Classify the next token of a JSON string body: the closing quote; a
simple escape; a `\u` escape (surrogate pairs combine, lone surrogates
become U+FFFD, as in Go's `unquote`); a raw control character is
invalid; any other character stands for itself. -/
def strStep : List Char → StrStep
  | [] => .fail
  | c :: cs =>
    if c = '"' then .done cs
    else if c = '\\' then
      match cs with
      | [] => .fail
      | e :: cs₁ =>
        if e = 'u' then
          match cs₁ with
          | h1 :: h2 :: h3 :: h4 :: cs₂ =>
            match hexVal h1, hexVal h2, hexVal h3, hexVal h4 with
            | some a, some b, some c', some d =>
              let cp := a * 4096 + b * 256 + c' * 16 + d
              if 0xD800 ≤ cp ∧ cp ≤ 0xDBFF then
                let dec := decodeLowSurrogate cp cs₂
                .emit dec.1 (5 + dec.2)
              else if 0xDC00 ≤ cp ∧ cp ≤ 0xDFFF then .emit replChar 5
              else .emit (Char.ofNat cp) 5
            | _, _, _, _ => .fail
          | _ => .fail
        else
          match simpleEscape e with
          | some c' => .emit c' 1
          | none => .fail
    else if c.toNat < 32 then .fail
    else .emit c 0

/-- Body of a JSON string after the opening quote: unescape until the
closing quote. -/
def parseStringBody : List Char → Option (List Char × List Char)
  | [] => none
  | c :: cs =>
    match strStep (c :: cs) with
    | .done rest => some ([], rest)
    | .fail => none
    | .emit ch extra =>
      (parseStringBody (cs.drop extra)).map (fun p => (ch :: p.1, p.2))
termination_by cs => cs.length
decreasing_by simp only [List.length_cons, List.length_drop]; omega

/-- Consume decimal digits, accumulating their value. -/
def parseDigitsLoop : List Char → Nat → Nat × List Char
  | [], acc => (acc, [])
  | c :: cs, acc =>
    if isDigitChar c then parseDigitsLoop cs (acc * 10 + (c.toNat - 48))
    else (acc, c :: cs)

/-- The integer part of a JSON number: `0`, or a nonzero digit followed
by digits (leading zeros are invalid JSON). -/
def parseNumberBody : List Char → Option (Nat × List Char)
  | [] => none
  | c :: cs =>
    if c = '0' then
      match cs with
      | d :: _ => if isDigitChar d then none else some (0, cs)
      | [] => some (0, cs)
    else if isDigitChar c then some (parseDigitsLoop cs (c.toNat - 48))
    else none

/-- A JSON number, after an optional leading minus has been consumed.
Fraction and exponent forms are outside the integer model and rejected
(Go would decode them into `float64`). -/
def parseNumber (neg : Bool) (cs : List Char) : Option (Json × List Char) :=
  match parseNumberBody cs with
  | none => none
  | some (n, rest) =>
    match rest with
    | c :: _ =>
      if c = '.' ∨ c = 'e' ∨ c = 'E' then none
      else some (.num (if neg then -(n : Int) else (n : Int)), rest)
    | [] => some (.num (if neg then -(n : Int) else (n : Int)), rest)

mutual

/-- One JSON value (no leading whitespace). -/
def parseVal : Nat → List Char → Option (Json × List Char)
  | 0, _ => none
  | fuel + 1, cs =>
    match cs with
    | [] => none
    | c :: rest =>
      if c = 'n' then
        match rest with
        | 'u' :: 'l' :: 'l' :: rest' => some (.null, rest')
        | _ => none
      else if c = 't' then
        match rest with
        | 'r' :: 'u' :: 'e' :: rest' => some (.bool true, rest')
        | _ => none
      else if c = 'f' then
        match rest with
        | 'a' :: 'l' :: 's' :: 'e' :: rest' => some (.bool false, rest')
        | _ => none
      else if c = '"' then
        (parseStringBody rest).map (fun p => (.str p.1, p.2))
      else if c = '-' then parseNumber true rest
      else if isDigitChar c then parseNumber false (c :: rest)
      else if c = '[' then
        match skipWs rest with
        | ']' :: rest₂ => some (.arr [], rest₂)
        | rest₁ => (parseElems fuel rest₁).map (fun p => (.arr p.1, p.2))
      else if c = '\x7b' then
        match skipWs rest with
        | '\x7d' :: rest₂ => some (.obj [], rest₂)
        | rest₁ => (parseMembers fuel [] rest₁).map (fun p => (.obj p.1, p.2))
      else none

/-- Elements of a non-empty array, starting at a value. -/
def parseElems : Nat → List Char → Option (List Json × List Char)
  | 0, _ => none
  | fuel + 1, cs =>
    match parseVal fuel cs with
    | none => none
    | some (v, rest) =>
      match skipWs rest with
      | ',' :: rest₂ =>
        (parseElems fuel (skipWs rest₂)).map (fun p => (v :: p.1, p.2))
      | ']' :: rest₂ => some ([v], rest₂)
      | _ => none

/-- Members of a non-empty object, starting at a key; members accumulate
into the sorted map `acc` (later duplicates win, as for a Go map). -/
def parseMembers : Nat → List (List Char × Json) → List Char →
    Option (List (List Char × Json) × List Char)
  | 0, _, _ => none
  | fuel + 1, acc, cs =>
    match cs with
    | '"' :: cs₁ =>
      match parseStringBody cs₁ with
      | none => none
      | some (k, cs₂) =>
        match skipWs cs₂ with
        | ':' :: cs₃ =>
          match parseVal fuel (skipWs cs₃) with
          | none => none
          | some (v, cs₄) =>
            match skipWs cs₄ with
            | ',' :: cs₅ => parseMembers fuel (insertMember k v acc) (skipWs cs₅)
            | '\x7d' :: cs₅ => some (insertMember k v acc, cs₅)
            | _ => none
        | _ => none
    | _ => none

end

/-- `json.Unmarshal` into `interface{}`: optional surrounding whitespace
around exactly one value. -/
def parseJson (cs : List Char) : Option Json :=
  match parseVal (2 * cs.length + 2) (skipWs cs) with
  | some (v, rest) => if skipWs rest = [] then some v else none
  | none => none

/-- A message as `sendBatch` sees it: payload characters, the remote
address, and the receive time already rendered in RFC 3339 nanosecond
form (`msg.Timestamp.Format(time.RFC3339Nano)` — time formatting itself
is stdlib and outside the model). -/
structure EncMessage where
  data : List Char
  source : List Char
  timestampRFC3339Nano : List Char
deriving DecidableEq, Repr

/-- The envelope `sendBatch` builds for a non-JSON payload; `json.Marshal`
orders the map keys alphabetically: message, source, timestamp. -/
def envelopeJson (m : EncMessage) : Json :=
  .obj [("message".data, .str m.data),
        ("source".data, .str m.source),
        ("timestamp".data, .str m.timestampRFC3339Nano)]

/-- The NDJSON line (without the trailing newline) `sendBatch` emits for
one message: the canonical re-serialization of the payload when it
parses as JSON, the envelope object otherwise (lines 820-845; the
`Marshal` error fallbacks in the source are dead code, since `Marshal`
of a decoded value or of a `map[string]interface{}` of strings cannot
fail). -/
def encodeLine (m : EncMessage) : List Char :=
  match parseJson m.data with
  | some v => serialize v
  | none => serialize (envelopeJson m)

/-- One emitted NDJSON record: the line plus `'\n'`. -/
def encodeMessage (m : EncMessage) : List Char := encodeLine m ++ ['\n']

/-- The batch body: the concatenation of all records. -/
def encodeBatchNDJSON (msgs : List EncMessage) : List Char :=
  (msgs.map encodeMessage).flatten

/-- Split a character stream at newlines; a final segment without a
trailing newline is kept. -/
def splitNl : List Char → List (List Char)
  | [] => []
  | c :: cs =>
    if c = '\n' then [] :: splitNl cs
    else
      match splitNl cs with
      | [] => [[c]]
      | seg :: segs => (c :: seg) :: segs

/-- A list whose head cannot extend a just-parsed number: not a digit and
not a fraction/exponent mark. -/
def numBoundary : List Char → Bool
  | [] => true
  | c :: _ => !(isDigitChar c || c = '.' || c = 'e' || c = 'E')

/-- A sample datagram whose payload is valid JSON. -/
def c5SampleJson : EncMessage :=
  ⟨"[1,2]".data, "10.0.0.1:5000".data, "2024-01-02T03:04:05Z".data⟩

/-- The same JSON payload received from another source at another time. -/
def c5SampleJson' : EncMessage :=
  ⟨"[1,2]".data, "10.0.0.2:6000".data, "2024-01-02T03:04:06Z".data⟩

/-- A sample datagram whose payload is not JSON. -/
def c5SampleText : EncMessage :=
  ⟨"plain text".data, "10.0.0.3:7000".data, "2024-01-02T03:04:07Z".data⟩

/-- The characters a serialized JSON value can start with. -/
def isValHead (c : Char) : Bool :=
  c = 'n' || c = 't' || c = 'f' || c = '"' || c = '-' || isDigitChar c ||
  c = '[' || c = '\x7b'

theorem forwardLoop_cons (a : HTTPAttempt) (rest : List HTTPAttempt)
    (lastErr : Option HTTPAttempt) :
    forwardLoop (a :: rest) lastErr =
      if attemptIsOk a then (.ok, 1)
      else if attemptIsTerminal a then (.fwdFailure (some a), 1)
      else ((forwardLoop rest (some a)).1, (forwardLoop rest (some a)).2 + 1) :=
  rfl

theorem retryable_not_ok {a : HTTPAttempt}
    (h : attemptIsRetryable a = true) : attemptIsOk a = false := by
  simp only [attemptIsRetryable, Bool.and_eq_true, Bool.not_eq_true'] at h
  exact h.1

theorem retryable_not_terminal {a : HTTPAttempt}
    (h : attemptIsRetryable a = true) : attemptIsTerminal a = false := by
  simp only [attemptIsRetryable, Bool.and_eq_true, Bool.not_eq_true'] at h
  exact h.2

theorem terminal_not_ok {a : HTTPAttempt}
    (h : attemptIsTerminal a = true) : attemptIsOk a = false := by
  cases a with
  | transportFail => rfl
  | response c =>
    rw [Bool.eq_false_iff]
    intro hok
    simp only [attemptIsOk, attemptIsTerminal, Bool.and_eq_true,
      decide_eq_true_eq] at hok h
    omega

theorem forwardLoop_attempts_le (outcomes : List HTTPAttempt)
    (lastErr : Option HTTPAttempt) :
    (forwardLoop outcomes lastErr).2 ≤ outcomes.length := by
  induction outcomes generalizing lastErr with
  | nil => simp [forwardLoop]
  | cons a rest ih =>
    rw [forwardLoop_cons]
    split
    · simp
    · split
      · simp
      · have := ih (some a)
        simp only [List.length_cons]
        omega

theorem forwardLoop_stops_at_first_decisive (pre : List HTTPAttempt)
    (a : HTTPAttempt) (rest : List HTTPAttempt)
    (hpre : ∀ x ∈ pre, attemptIsRetryable x = true)
    (lastErr : Option HTTPAttempt) :
    (attemptIsOk a = true →
      forwardLoop (pre ++ a :: rest) lastErr = (.ok, pre.length + 1)) ∧
    (attemptIsTerminal a = true →
      forwardLoop (pre ++ a :: rest) lastErr =
        (.fwdFailure (some a), pre.length + 1)) := by
  induction pre generalizing lastErr with
  | nil =>
    constructor
    · intro hok
      simp [forwardLoop_cons, hok]
    · intro hterm
      simp [forwardLoop_cons, terminal_not_ok hterm, hterm]
  | cons p ps ih =>
    have hp : attemptIsRetryable p = true := hpre p (by simp)
    have hps : ∀ x ∈ ps, attemptIsRetryable x = true := by
      intro x hx; exact hpre x (by simp [hx])
    constructor
    · intro hok
      have hrec := (ih hps (some p)).1 hok
      rw [List.cons_append, forwardLoop_cons]
      simp only [retryable_not_ok hp, retryable_not_terminal hp,
        Bool.false_eq_true, if_false, hrec, List.length_cons]
    · intro hterm
      have hrec := (ih hps (some p)).2 hterm
      rw [List.cons_append, forwardLoop_cons]
      simp only [retryable_not_ok hp, retryable_not_terminal hp,
        Bool.false_eq_true, if_false, hrec, List.length_cons]

theorem forwardLoop_all_retryable (outcomes : List HTTPAttempt)
    (hall : ∀ x ∈ outcomes, attemptIsRetryable x = true)
    (hne : outcomes ≠ []) (lastErr : Option HTTPAttempt) :
    forwardLoop outcomes lastErr =
      (.fwdFailure outcomes.getLast?, outcomes.length) := by
  induction outcomes generalizing lastErr with
  | nil => exact absurd rfl hne
  | cons a rest ih =>
    have ha : attemptIsRetryable a = true := hall a (by simp)
    cases rest with
    | nil => simp [forwardLoop, retryable_not_ok ha, retryable_not_terminal ha]
    | cons b bs =>
      have hrest : ∀ x ∈ b :: bs, attemptIsRetryable x = true := by
        intro x hx; exact hall x (by simp [hx])
      have hrec := ih hrest (by simp) (some a)
      rw [forwardLoop_cons]
      simp only [retryable_not_ok ha, retryable_not_terminal ha,
        Bool.false_eq_true, if_false, hrec, List.length_cons,
        List.getLast?_cons_cons]

/-- C1: For every batch, `ForwardBatch` makes at most `retry_count + 1`
HTTP POST attempts: it returns nil as soon as an attempt yields a 2xx
status; after a 4xx status it makes no further attempts and returns an
error; on 5xx statuses and transport errors it keeps retrying until the
`retry_count` additional attempts are exhausted and then returns an error
carrying the last observed failure. -/
theorem c1_forwardBatch_retry_policy (retryCount : Nat)
    (outcomes : List HTTPAttempt)
    (hlen : outcomes.length = retryCount + 1) :
    (ForwardBatch outcomes).2 ≤ retryCount + 1 ∧
    (∀ pre a rest, outcomes = pre ++ a :: rest →
      (∀ x ∈ pre, attemptIsRetryable x = true) →
      (attemptIsOk a = true → ForwardBatch outcomes = (.ok, pre.length + 1)) ∧
      (attemptIsTerminal a = true →
        ForwardBatch outcomes = (.fwdFailure (some a), pre.length + 1))) ∧
    ((∀ x ∈ outcomes, attemptIsRetryable x = true) →
      ForwardBatch outcomes =
        (.fwdFailure outcomes.getLast?, retryCount + 1)) := by
  refine ⟨?_, ?_, ?_⟩
  · have := forwardLoop_attempts_le outcomes none
    simpa [ForwardBatch, hlen] using this
  · intro pre a rest heq hpre
    subst heq
    exact forwardLoop_stops_at_first_decisive pre a rest hpre none
  · intro hall
    have hne : outcomes ≠ [] := by
      intro h; rw [h] at hlen; simp at hlen
    have := forwardLoop_all_retryable outcomes hall hne none
    simpa [ForwardBatch, hlen] using this

/-- Witness for C1 at a concrete input: with `retry_count = 2` and the
receiver producing 500, a transport error, then 204, exactly three
attempts are made and the call succeeds; with all attempts 503 the call
errors with the last failure after three attempts. -/
theorem c1_forwardBatch_retry_policy_witness :
    ForwardBatch [.response 500, .transportFail, .response 204] = (.ok, 3) ∧
    ForwardBatch [.response 503, .response 503, .response 503] =
      (.fwdFailure (some (.response 503)), 3) := by
  constructor
  · have h := c1_forwardBatch_retry_policy 2
      [.response 500, .transportFail, .response 204] (by decide)
    have := (h.2.1 [.response 500, .transportFail] (.response 204) []
      (by decide) (by decide)).1 (by decide)
    simpa using this
  · have h := c1_forwardBatch_retry_policy 2
      [.response 503, .response 503, .response 503] (by decide)
    have := h.2.2 (by decide)
    simpa using this

/-- C7: For every received datagram, the payload enqueued to the batcher
equals the datagram bytes with ASCII control bytes 0x00 and 0x08 and
surrounding whitespace stripped (`bytes.TrimSpace` then
`bytes.Trim(·, "\x08\x00")`); datagrams whose payload is empty after this
stripping are dropped silently, so every enqueued message has a non-empty
payload. -/
theorem c7_sanitize_enqueue (data : List Nat) (fromAddr : String)
    (tenantID datasetID : String) (now : Nat)
    (channel : List UDPMessage) (stats : ProxyStats) :
    (sanitizePayload data = [] →
      processMessageWithContext data fromAddr tenantID datasetID now
        channel stats = (channel, stats)) ∧
    (sanitizePayload data ≠ [] → channel.length < batchChannelCapacity →
      (processMessageWithContext data fromAddr tenantID datasetID now
        channel stats).1 =
        channel ++ [⟨sanitizePayload data, fromAddr, now, tenantID, datasetID⟩]) ∧
    (∀ m ∈ (processMessageWithContext data fromAddr tenantID datasetID now
        channel stats).1, m ∈ channel ∨ m.data = sanitizePayload data) ∧
    ((∀ m ∈ channel, m.data ≠ []) →
      ∀ m ∈ (processMessageWithContext data fromAddr tenantID datasetID now
        channel stats).1, m.data ≠ []) := by
  refine ⟨?_, ?_, ?_, ?_⟩
  · intro hempty
    simp [processMessageWithContext, hempty]
  · intro hne hcap
    have : sanitizePayload data ≠ [] := hne
    simp [processMessageWithContext, List.length_eq_zero.not.mpr this, hcap]
  · intro m hm
    by_cases hempty : (sanitizePayload data).length = 0
    · simp [processMessageWithContext, hempty] at hm
      exact Or.inl hm
    · by_cases hcap : channel.length < batchChannelCapacity
      · simp [processMessageWithContext, hempty, hcap] at hm
        rcases hm with h | h
        · exact Or.inl h
        · exact Or.inr (by simp [h])
      · simp [processMessageWithContext, hempty, hcap] at hm
        exact Or.inl hm
  · intro hinv m hm
    by_cases hempty : (sanitizePayload data).length = 0
    · simp [processMessageWithContext, hempty] at hm
      exact hinv m hm
    · by_cases hcap : channel.length < batchChannelCapacity
      · simp [processMessageWithContext, hempty, hcap] at hm
        rcases hm with h | h
        · exact hinv m h
        · rw [h]
          simp only [ne_eq, ← List.length_eq_zero]
          exact hempty
      · simp [processMessageWithContext, hempty, hcap] at hm
        exact hinv m hm

/-- Witness for C7: the datagram `"\x00\x08{\"a\":1} \r\n"` is enqueued
onto an empty channel with the sanitized payload `"{\"a\":1}"`, and the
all-whitespace datagram is dropped. -/
theorem c7_sanitize_enqueue_witness :
    (processMessageWithContext
        [0, 8, 123, 34, 97, 34, 58, 49, 125, 32, 13, 10] "10.0.0.1:55555"
        "t1" "d1" 7 [] ⟨0, 0, 0, 0⟩).1 =
      [⟨[123, 34, 97, 34, 58, 49, 125], "10.0.0.1:55555", 7, "t1", "d1"⟩] ∧
    processMessageWithContext [32, 9, 0] "10.0.0.1:55555" "t1" "d1" 7 []
        ⟨0, 0, 0, 0⟩ = ([], ⟨0, 0, 0, 0⟩) := by
  constructor
  · have h := (c7_sanitize_enqueue
      [0, 8, 123, 34, 97, 34, 58, 49, 125, 32, 13, 10] "10.0.0.1:55555"
      "t1" "d1" 7 [] ⟨0, 0, 0, 0⟩).2.1 (by decide) (by decide)
    rw [h]
    decide
  · exact (c7_sanitize_enqueue [32, 9, 0] "10.0.0.1:55555" "t1" "d1" 7 []
      ⟨0, 0, 0, 0⟩).1 (by decide)

/-- C8 counterexample: the eight-character value `"12345678"` is echoed as
`"***"`, not as `<first4>***<last4>` = `"1234***5678"` as the claim
states for every sensitive value. -/
theorem c8_mask_counterexample :
    maskSensitiveValue ['1', '2', '3', '4', '5', '6', '7', '8'] ≠
      ['1', '2', '3', '4'] ++ ['*', '*', '*'] ++ ['5', '6', '7', '8'] := by
  decide

/-- C8 (amended): sensitive values longer than eight characters are masked
as `<first4>***<last4>`; shorter non-empty values are fully masked as
`***`; the empty value is echoed unchanged. -/
theorem c8_mask_amended (value : List Char) :
    (8 < value.length →
      maskSensitiveValue value =
        value.take 4 ++ ['*', '*', '*'] ++ value.drop (value.length - 4)) ∧
    (value ≠ [] → value.length ≤ 8 → maskSensitiveValue value = ['*', '*', '*']) ∧
    maskSensitiveValue [] = [] := by
  refine ⟨?_, ?_, rfl⟩
  · intro hlen
    have hne : value ≠ [] := by
      intro h; rw [h] at hlen; simp at hlen
    simp [maskSensitiveValue, hne, Nat.not_le.mpr hlen]
  · intro hne hle
    simp [maskSensitiveValue, hne, hle]

/-- Witness for C8 (amended) at concrete values: a 12-character token and
a 5-character one. -/
theorem c8_mask_amended_witness :
    maskSensitiveValue ['a', 'b', 'c', 'd', 'e', 'f', 'g', 'h', 'i', 'j', 'k', 'l'] =
      ['a', 'b', 'c', 'd', '*', '*', '*', 'i', 'j', 'k', 'l'] ∧
    maskSensitiveValue ['s', 'h', 'o', 'r', 't'] = ['*', '*', '*'] := by
  constructor
  · have h := (c8_mask_amended
      ['a', 'b', 'c', 'd', 'e', 'f', 'g', 'h', 'i', 'j', 'k', 'l']).1 (by decide)
    rw [h]
    rfl
  · exact (c8_mask_amended ['s', 'h', 'o', 'r', 't']).2.1 (by decide) (by decide)

theorem alistLookup_mem {α : Type} {k : String} {v : α}
    {l : List (String × α)} (h : alistLookup k l = some v) : (k, v) ∈ l := by
  induction l with
  | nil => simp [alistLookup] at h
  | cons p rest ih =>
    obtain ⟨k', v'⟩ := p
    by_cases hk : k' = k
    · subst hk
      simp [alistLookup] at h
      simp [h]
    · simp [alistLookup, hk] at h
      exact List.mem_cons_of_mem _ (ih h)

theorem alistErase_subset {α : Type} {k : String} {x : String × α}
    {l : List (String × α)} (h : x ∈ alistErase k l) : x ∈ l := by
  induction l with
  | nil => simp [alistErase] at h
  | cons p rest ih =>
    obtain ⟨k', v'⟩ := p
    by_cases hk : k' = k
    · simp [alistErase, hk] at h
      exact List.mem_cons_of_mem _ h
    · simp only [alistErase, hk, if_false, List.mem_cons] at h
      rcases h with h | h
      · exact h ▸ List.mem_cons_self _ _
      · exact List.mem_cons_of_mem _ (ih h)

theorem alistInsert_mem {α : Type} {k : String} {v : α} {x : String × α}
    {l : List (String × α)} (h : x ∈ alistInsert k v l) :
    x = (k, v) ∨ x ∈ l := by
  induction l with
  | nil => simpa [alistInsert] using h
  | cons p rest ih =>
    obtain ⟨k', v'⟩ := p
    by_cases hk : k' = k
    · simp only [alistInsert, hk, if_true, List.mem_cons] at h
      rcases h with h | h
      · exact Or.inl h
      · exact Or.inr (List.mem_cons_of_mem _ h)
    · simp only [alistInsert, hk, if_false, List.mem_cons] at h
      rcases h with h | h
      · exact Or.inr (h ▸ List.mem_cons_self _ _)
      · rcases ih h with h' | h'
        · exact Or.inl h'
        · exact Or.inr (List.mem_cons_of_mem _ h')

/-- C6: appending a message seals the batch exactly when the new line
count reaches `max_batch_lines` (when positive) or the new byte total
reaches `max_batch_bytes` (when positive); it seals on the message that
reaches the line limit (the sealed batch has exactly `max_batch_lines`
lines), open batches always stay below the limits, and a timer fire seals
and sends every non-empty open batch across all keys. -/
theorem c6_batch_sealing (maxBatchLines maxBatchBytes : Int) (nowNanos : Nat)
    (batches : List (String × DataBatch)) (msg : UDPMessage)
    (hinv : ∀ kv ∈ batches, batchBelowLimits maxBatchLines maxBatchBytes kv.2) :
    ((forwarderOnMessage maxBatchLines maxBatchBytes nowNanos batches msg).2 =
        [updatedBatch nowNanos batches msg] ↔
      (0 < maxBatchLines ∧
        maxBatchLines ≤ (updatedBatch nowNanos batches msg).lineCount) ∨
      (0 < maxBatchBytes ∧
        maxBatchBytes ≤ (updatedBatch nowNanos batches msg).totalBytes)) ∧
    (0 < maxBatchLines →
      maxBatchLines ≤ (updatedBatch nowNanos batches msg).lineCount →
      (updatedBatch nowNanos batches msg).lineCount = maxBatchLines) ∧
    (∀ kv ∈ (forwarderOnMessage maxBatchLines maxBatchBytes nowNanos
        batches msg).1, batchBelowLimits maxBatchLines maxBatchBytes kv.2) ∧
    (∀ kv ∈ batches, kv.2.messages ≠ [] →
      kv.2 ∈ (forwarderOnTimer batches).2) ∧
    (∀ kv ∈ (forwarderOnTimer batches).1, kv.2.messages = []) := by
  have hcond : shouldSendBatch maxBatchLines maxBatchBytes
      (updatedBatch nowNanos batches msg) = true ↔
      (0 < maxBatchLines ∧
        maxBatchLines ≤ (updatedBatch nowNanos batches msg).lineCount) ∨
      (0 < maxBatchBytes ∧
        maxBatchBytes ≤ (updatedBatch nowNanos batches msg).totalBytes) := by
    simp [shouldSendBatch]
  have hlc : (updatedBatch nowNanos batches msg).lineCount =
      (pendingBatchFor nowNanos batches msg).lineCount + 1 := rfl
  have hpend : 0 < maxBatchLines →
      (pendingBatchFor nowNanos batches msg).lineCount < maxBatchLines := by
    intro hL
    unfold pendingBatchFor
    cases hlook : alistLookup (batchKeyOf msg) batches with
    | some b =>
      have := hinv _ (alistLookup_mem hlook)
      exact this.1 hL
    | none => simpa using hL
  refine ⟨?_, ?_, ?_, ?_, ?_⟩
  · constructor
    · intro hsend
      simp only [forwarderOnMessage] at hsend
      split at hsend
      · rename_i hs
        exact hcond.mp hs
      · simp at hsend
    · intro hreach
      simp only [forwarderOnMessage]
      rw [if_pos (hcond.mpr hreach)]
  · intro hL hreach
    have h1 := hpend hL
    rw [hlc] at hreach ⊢
    omega
  · intro kv hkv
    simp only [forwarderOnMessage] at hkv
    split at hkv
    · exact hinv kv (alistErase_subset hkv)
    · rename_i hnsend
      rcases alistInsert_mem hkv with h | h
      · have hcond' := hcond.not.mp hnsend
        push_neg at hcond'
        subst h
        exact hcond'
      · exact hinv kv h
  · intro kv hkv hne
    simp only [forwarderOnTimer, List.mem_map]
    refine ⟨kv, ?_, rfl⟩
    rw [List.mem_filter]
    refine ⟨hkv, ?_⟩
    simpa [List.isEmpty_iff] using hne
  · intro kv hkv
    simp only [forwarderOnTimer, List.mem_filter] at hkv
    exact List.isEmpty_iff.mp (by simpa using hkv.2)

/-- Witness for C6: with `max_batch_lines = 2`, a second message for
`t1:d1` seals that batch with exactly two lines, and a timer fire on a
map holding one non-empty batch sends it. -/
theorem c6_batch_sealing_witness :
    (forwarderOnMessage 2 0 9
        [("t1:d1", ⟨"5_t1:d1", "t1", "d1", [⟨[104, 105], "s", 5, "t1", "d1"⟩],
          1, 2, 5⟩)]
        ⟨[104, 111], "s", 9, "t1", "d1"⟩).2 =
      [⟨"5_t1:d1", "t1", "d1",
        [⟨[104, 105], "s", 5, "t1", "d1"⟩, ⟨[104, 111], "s", 9, "t1", "d1"⟩],
        2, 4, 5⟩] ∧
    (⟨"5_t1:d1", "t1", "d1", [⟨[104, 105], "s", 5, "t1", "d1"⟩], 1, 2, 5⟩ :
        DataBatch) ∈
      (forwarderOnTimer
        [("t1:d1", ⟨"5_t1:d1", "t1", "d1", [⟨[104, 105], "s", 5, "t1", "d1"⟩],
          1, 2, 5⟩)]).2 := by
  have h := c6_batch_sealing 2 0 9
    [("t1:d1", ⟨"5_t1:d1", "t1", "d1", [⟨[104, 105], "s", 5, "t1", "d1"⟩],
      1, 2, 5⟩)]
    ⟨[104, 111], "s", 9, "t1", "d1"⟩
    (by intro kv hkv; simp at hkv; subst hkv; exact ⟨by decide, by decide⟩)
  constructor
  · have hseal := h.1.mpr (Or.inl ⟨by decide, by decide⟩)
    rw [hseal]
    decide
  · exact h.2.2.2.1
      ("t1:d1", ⟨"5_t1:d1", "t1", "d1", [⟨[104, 105], "s", 5, "t1", "d1"⟩],
        1, 2, 5⟩) (by simp) (by decide)

/-- C2: the over-budget branch of `SpoolData` does not behave as claimed.
On a spool with `max_size_bytes = 10` holding 8 bytes, spooling an
11-byte payload makes `current_size + len(payload)` exceed the budget;
instead of cleaning up, rechecking and returning an error, the goroutine
deadlocks (`cleanupOldFiles` re-acquires the write lock `SpoolData` still
holds), so the call never returns and no cleanup happens.  The in-budget
path does behave as claimed: payload file first, then a meta file with
status `"pending"` and `retry_count 0`, and `current_size` grows by
exactly `len(payload)`. -/
theorem c2_spoolData_over_budget_deadlocks :
    (SpoolData true 10 "t1" "d1" [0, 1, 2, 3, 4, 5, 6, 7, 8, 9, 10] "http 503"
        42 ⟨[], [], 8, false⟩).1 = SpoolDataResult.deadlock ∧
    SpoolData true 100 "t1" "d1" [10, 32, 10] "http 503" 42 ⟨[], [], 8, false⟩ =
      (SpoolDataResult.ok,
       ⟨[("42_t1_d1.ndjson", [10, 32, 10])],
        [("42_t1_d1.meta",
          ⟨"42_t1_d1", "t1", "d1", "42_t1_d1.ndjson", 3, 42, 0, 0, "pending",
           "http 503"⟩)],
        11, false⟩,
       [.writeData "42_t1_d1.ndjson" true, .writeMeta "42_t1_d1.meta" true,
        .addSize 3 true]) := by
  constructor
  · rfl
  · rfl

/-- C3: `cleanupOldFiles` removes a permanently-failed record well before
its age exceeds `max_attempts * retry_interval * 2`, merely because its
`retry_count` reached `max_attempts` — contradicting the claim (and the
source's own "preserved for manual recovery" comments and alert text).
With `retry_attempts = 3`, `retry_interval = 10`, a failed record created
at time 90 is only 10 old at time 100 (maxAge is 60), yet one cleanup
tick deletes both of its files and decrements `current_size`. -/
theorem c3_cleanup_removes_young_failed_record :
    ((100 - 90 : Nat) : Int) ≤ 3 * 10 * 2 ∧
    cleanupOldFiles 3 10 100
        ⟨[("100_t1_d1.ndjson", [1, 2, 3])],
         [("100_t1_d1.meta",
           ⟨"100_t1_d1", "t1", "d1", "100_t1_d1.ndjson", 3, 90, 95, 3,
            "failed", "x"⟩)],
         3, false⟩ =
      some (⟨[], [], 0, false⟩,
        [.removeData "100_t1_d1.ndjson" true, .removeMeta "100_t1_d1.meta" true,
         .subSize 3 true]) := by
  constructor
  · decide
  · rfl

/-- C9: the retry worker mutates the spool directory and `current_size`
without holding the spool mutex.  On a one-record spool whose forward
succeeds, `processRetries` deletes both files and decrements
`current_size`, and every one of those mutation events is tagged as
happening with the lock not held — so the claimed mutex discipline (and
with it the no-double-decrement argument) does not hold in the code. -/
theorem c9_retry_worker_mutates_without_lock :
    (processRetries 3 10 true (fun _ => none) 10
        ⟨[("5_t1_d1.ndjson", [1, 2, 3])],
         [("5_t1_d1.meta",
           ⟨"5_t1_d1", "t1", "d1", "5_t1_d1.ndjson", 3, 0, 0, 0, "pending",
            ""⟩)],
         3, false⟩).2 =
      [.httpForward "5_t1_d1", .removeData "5_t1_d1.ndjson" false,
       .removeMeta "5_t1_d1.meta" false, .subSize 3 false] ∧
    SpoolEvent.subSize 3 false ∈
      (processRetries 3 10 true (fun _ => none) 10
        ⟨[("5_t1_d1.ndjson", [1, 2, 3])],
         [("5_t1_d1.meta",
           ⟨"5_t1_d1", "t1", "d1", "5_t1_d1.ndjson", 3, 0, 0, 0, "pending",
            ""⟩)],
         3, false⟩).2 := by
  constructor
  · rfl
  · decide

theorem alistLookup_insert_self {α : Type} (k : String) (v : α)
    (l : List (String × α)) : alistLookup k (alistInsert k v l) = some v := by
  induction l with
  | nil => simp [alistInsert, alistLookup]
  | cons p rest ih =>
    obtain ⟨k', v'⟩ := p
    by_cases hk : k' = k
    · simp [alistInsert, hk, alistLookup]
    · simp [alistInsert, hk, alistLookup, ih]

theorem alistLookup_insert_ne {α : Type} (k k' : String) (v : α)
    (l : List (String × α)) (h : k' ≠ k) :
    alistLookup k (alistInsert k' v l) = alistLookup k l := by
  induction l with
  | nil => simp [alistInsert, alistLookup, h]
  | cons p rest ih =>
    obtain ⟨k'', v''⟩ := p
    by_cases hk : k'' = k'
    · subst hk
      simp only [alistInsert, if_pos rfl]
      simp [alistLookup, h]
    · simp only [alistInsert, if_neg hk, alistLookup]
      by_cases hk2 : k'' = k
      · simp [hk2]
      · simp [hk2, ih]

theorem alistLookup_erase_ne {α : Type} (k k' : String)
    (l : List (String × α)) (h : k' ≠ k) :
    alistLookup k (alistErase k' l) = alistLookup k l := by
  induction l with
  | nil => simp [alistErase, alistLookup]
  | cons p rest ih =>
    obtain ⟨k'', v''⟩ := p
    by_cases hk : k'' = k'
    · subst hk
      simp only [alistErase, if_pos rfl]
      simp [alistLookup, h]
    · simp only [alistErase, if_neg hk, alistLookup]
      by_cases hk2 : k'' = k
      · simp [hk2]
      · simp [hk2, ih]

theorem alistLookup_append_not_mem {α : Type} (k : String) (v : α)
    (l1 l2 : List (String × α)) (h : k ∉ l1.map Prod.fst) :
    alistLookup k (l1 ++ (k, v) :: l2) = some v := by
  induction l1 with
  | nil => simp [alistLookup]
  | cons p rest ih =>
    obtain ⟨k', v'⟩ := p
    simp only [List.map_cons, List.mem_cons] at h
    push_neg at h
    simp only [List.cons_append, alistLookup]
    rw [if_neg (Ne.symm h.1)]
    exact ih h.2

theorem string_append_right_cancel {a b : String} (s : String)
    (h : a ++ s = b ++ s) : a = b := by
  have hd : a.data ++ s.data = b.data ++ s.data := by
    rw [← String.data_append, ← String.data_append, h]
  have h2 := List.append_cancel_right hd
  cases a with
  | mk da =>
    cases b with
    | mk db => exact congrArg String.mk h2

theorem processOne_preserves_other (retryAttempts : Int) (retryInterval : Nat)
    (alertSink : Bool) (forwardResult : SpooledFile → Option String)
    (now : Nat) (st : SpoolState) (f m : SpooledFile) (hid : f.id ≠ m.id)
    (hfn : f.filename = f.id ++ ".ndjson") :
    alistLookup (m.id ++ ".meta")
        (processOneSpooledFile retryAttempts retryInterval alertSink
          forwardResult now st f).1.metaFiles =
      alistLookup (m.id ++ ".meta") st.metaFiles ∧
    alistLookup (m.id ++ ".ndjson")
        (processOneSpooledFile retryAttempts retryInterval alertSink
          forwardResult now st f).1.dataFiles =
      alistLookup (m.id ++ ".ndjson") st.dataFiles ∧
    ∀ e ∈ (processOneSpooledFile retryAttempts retryInterval alertSink
        forwardResult now st f).2,
      e ≠ SpoolEvent.alertSent "high" m.id ∧ e ≠ SpoolEvent.httpForward m.id := by
  have hmeta : f.id ++ ".meta" ≠ m.id ++ ".meta" := fun hc =>
    hid (string_append_right_cancel _ hc)
  have hdata : f.id ++ ".ndjson" ≠ m.id ++ ".ndjson" := fun hc =>
    hid (string_append_right_cancel _ hc)
  by_cases h1 : f.status = "failed"
  · simp [processOneSpooledFile, h1]
  · by_cases h2 : now - f.lastRetry < retryInterval
    · simp [processOneSpooledFile, h1, h2]
    · by_cases h3 : retryAttempts ≤ f.retryCount
      · refine ⟨?_, ?_, ?_⟩
        · simp only [processOneSpooledFile, h1, h2, h3, if_neg, if_pos,
            if_false, if_true, markAsPermanentlyFailed]
          exact alistLookup_insert_ne _ _ _ _ hmeta
        · simp [processOneSpooledFile, h1, h2, h3, markAsPermanentlyFailed]
        · intro e he
          simp only [processOneSpooledFile, h1, h2, h3, if_neg, if_pos,
            if_false, if_true, markAsPermanentlyFailed] at he
          rcases List.mem_append.mp he with h | h
          · split at h
            · simp only [List.mem_singleton] at h
              subst h
              exact ⟨by simp [hid], by simp⟩
            · simp at h
          · simp only [List.mem_singleton] at h
            subst h
            exact ⟨by simp, by simp⟩
      · cases hlook : alistLookup f.filename st.dataFiles with
        | none => simp [processOneSpooledFile, h1, h2, h3, hlook]
        | some bytes =>
          rw [hfn] at hlook
          cases hfwd : forwardResult f with
          | none =>
            refine ⟨?_, ?_, ?_⟩
            · simp only [processOneSpooledFile, h1, h2, h3, if_neg, if_false,
                hfn, hlook, hfwd, removeSpooledFile]
              exact alistLookup_erase_ne _ _ _ hmeta
            · simp only [processOneSpooledFile, h1, h2, h3, if_neg, if_false,
                hfn, hlook, hfwd, removeSpooledFile]
              exact alistLookup_erase_ne _ _ _ hdata
            · intro e he
              simp only [processOneSpooledFile, h1, h2, h3, if_neg, if_false,
                hfn, hlook, hfwd, removeSpooledFile, List.mem_cons,
                List.mem_singleton, List.not_mem_nil, or_false] at he
              rcases he with h | h | h | h <;> subst h <;>
                exact ⟨by simp, by simp [hid]⟩
          | some msg =>
            refine ⟨?_, ?_, ?_⟩
            · simp only [processOneSpooledFile, h1, h2, h3, if_neg, if_false,
                hfn, hlook, hfwd, updateRetryMetadata]
              exact alistLookup_insert_ne _ _ _ _ hmeta
            · simp [processOneSpooledFile, h1, h2, h3, hfn, hlook, hfwd,
                updateRetryMetadata]
            · intro e he
              simp only [processOneSpooledFile, h1, h2, h3, if_neg, if_false,
                hfn, hlook, hfwd, updateRetryMetadata, List.mem_cons,
                List.mem_singleton, List.not_mem_nil, or_false] at he
              rcases he with h | h <;> subst h <;>
                exact ⟨by simp, by simp [hid]⟩

theorem retryFold_preserves_other (retryAttempts : Int) (retryInterval : Nat)
    (alertSink : Bool) (forwardResult : SpooledFile → Option String)
    (now : Nat) (m : SpooledFile) (fs : List SpooledFile)
    (hfs : ∀ f ∈ fs, f.id ≠ m.id ∧ f.filename = f.id ++ ".ndjson") :
    ∀ acc : SpoolState × List SpoolEvent,
    alistLookup (m.id ++ ".meta")
        (fs.foldl (retryStep retryAttempts retryInterval alertSink
          forwardResult now) acc).1.metaFiles =
      alistLookup (m.id ++ ".meta") acc.1.metaFiles ∧
    alistLookup (m.id ++ ".ndjson")
        (fs.foldl (retryStep retryAttempts retryInterval alertSink
          forwardResult now) acc).1.dataFiles =
      alistLookup (m.id ++ ".ndjson") acc.1.dataFiles ∧
    ∃ extra,
      (fs.foldl (retryStep retryAttempts retryInterval alertSink
        forwardResult now) acc).2 = acc.2 ++ extra ∧
      ∀ e ∈ extra,
        e ≠ SpoolEvent.alertSent "high" m.id ∧
        e ≠ SpoolEvent.httpForward m.id := by
  induction fs with
  | nil =>
    intro acc
    exact ⟨rfl, rfl, [], by simp, by simp⟩
  | cons f rest ih =>
    intro acc
    have hf := hfs f (by simp)
    have hrest : ∀ g ∈ rest, g.id ≠ m.id ∧ g.filename = g.id ++ ".ndjson" := by
      intro g hg; exact hfs g (by simp [hg])
    have hone := processOne_preserves_other retryAttempts retryInterval
      alertSink forwardResult now acc.1 f m hf.1 hf.2
    have hrec := (ih hrest) (retryStep retryAttempts retryInterval alertSink
      forwardResult now acc f)
    obtain ⟨extra, hext, hextp⟩ := hrec.2.2
    refine ⟨?_, ?_, ?_⟩
    · rw [List.foldl_cons, hrec.1]
      simpa [retryStep] using hone.1
    · rw [List.foldl_cons, hrec.2.1]
      simpa [retryStep] using hone.2.1
    · refine ⟨(processOneSpooledFile retryAttempts retryInterval alertSink
        forwardResult now acc.1 f).2 ++ extra, ?_, ?_⟩
      · rw [List.foldl_cons, hext]
        simp [retryStep]
      · intro e he
        rcases List.mem_append.mp he with h | h
        · exact hone.2.2 e h
        · exact hextp e h

theorem processOne_transition (retryAttempts : Int) (retryInterval : Nat)
    (forwardResult : SpooledFile → Option String) (now : Nat)
    (st : SpoolState) (m : SpooledFile) (hstatus : m.status ≠ "failed")
    (htime : retryInterval ≤ now - m.lastRetry)
    (hcount : retryAttempts ≤ m.retryCount) :
    processOneSpooledFile retryAttempts retryInterval true forwardResult now
        st m =
      ({ st with
          metaFiles := alistInsert (m.id ++ ".meta")
            { m with
                status := "failed"
                lastRetry := now
                failureReason :=
                  "Exceeded maximum retry attempts - manual recovery required" }
            st.metaFiles },
       [SpoolEvent.alertSent "high" m.id,
        SpoolEvent.writeMeta (m.id ++ ".meta") st.locked]) := by
  simp [processOneSpooledFile, hstatus, Nat.not_lt.mpr htime, hcount,
    markAsPermanentlyFailed]

theorem processOne_failed_skip (retryAttempts : Int) (retryInterval : Nat)
    (alertSink : Bool) (forwardResult : SpooledFile → Option String)
    (now : Nat) (st : SpoolState) (m : SpooledFile)
    (hstatus : m.status = "failed") :
    processOneSpooledFile retryAttempts retryInterval alertSink forwardResult
      now st m = (st, []) := by
  simp [processOneSpooledFile, hstatus]

/-- C4: on a well-formed spool, a retry tick transitions a record whose
`retry_count` has reached `max_attempts` (and whose last retry is at
least one interval old) to status `"failed"`, emits exactly one
high-severity alert for it, makes no HTTP attempt for it, and leaves both
of its files on disk; and a retry tick on a record already marked
`"failed"` leaves its files untouched and performs neither an HTTP
attempt nor an alert for it. -/
theorem c4_max_retries_transition (retryAttempts : Int) (retryInterval : Nat)
    (forwardResult : SpooledFile → Option String) (now : Nat)
    (st : SpoolState) (m : SpooledFile) (hWF : SpoolWF st)
    (hmem : (m.id ++ ".meta", m) ∈ st.metaFiles) :
    (m.status ≠ "failed" → retryInterval ≤ now - m.lastRetry →
      retryAttempts ≤ m.retryCount →
      alistLookup (m.id ++ ".meta")
          (processRetries retryAttempts retryInterval true forwardResult now
            st).1.metaFiles =
        some { m with
            status := "failed"
            lastRetry := now
            failureReason :=
              "Exceeded maximum retry attempts - manual recovery required" } ∧
      alistLookup (m.id ++ ".ndjson")
          (processRetries retryAttempts retryInterval true forwardResult now
            st).1.dataFiles =
        alistLookup (m.id ++ ".ndjson") st.dataFiles ∧
      (processRetries retryAttempts retryInterval true forwardResult now
          st).2.count (SpoolEvent.alertSent "high" m.id) = 1 ∧
      SpoolEvent.httpForward m.id ∉
        (processRetries retryAttempts retryInterval true forwardResult now
          st).2) ∧
    (m.status = "failed" →
      alistLookup (m.id ++ ".meta")
          (processRetries retryAttempts retryInterval true forwardResult now
            st).1.metaFiles = some m ∧
      alistLookup (m.id ++ ".ndjson")
          (processRetries retryAttempts retryInterval true forwardResult now
            st).1.dataFiles =
        alistLookup (m.id ++ ".ndjson") st.dataFiles ∧
      SpoolEvent.alertSent "high" m.id ∉
        (processRetries retryAttempts retryInterval true forwardResult now
          st).2 ∧
      SpoolEvent.httpForward m.id ∉
        (processRetries retryAttempts retryInterval true forwardResult now
          st).2) := by
  obtain ⟨l1, l2, hsplit⟩ := List.append_of_mem hmem
  have hshape := hWF.1
  have hnd := hWF.2
  rw [hsplit] at hnd
  rw [List.map_append, List.map_cons] at hnd
  rw [List.nodup_append] at hnd
  have hkey_l1 : (m.id ++ ".meta") ∉ l1.map Prod.fst := by
    intro hmem1
    exact hnd.2.2 hmem1 (by simp)
  have hkey_l2 : (m.id ++ ".meta") ∉ l2.map Prod.fst := by
    have := hnd.2.1
    rw [List.nodup_cons] at this
    exact this.1
  have hother : ∀ p ∈ l1 ++ l2,
      p.2.id ≠ m.id ∧ p.2.filename = p.2.id ++ ".ndjson" := by
    intro p hp
    have hpmem : p ∈ st.metaFiles := by
      rw [hsplit]
      rcases List.mem_append.mp hp with h | h
      · exact List.mem_append.mpr (Or.inl h)
      · exact List.mem_append.mpr (Or.inr (List.mem_cons_of_mem _ h))
    have hsh := hshape p hpmem
    refine ⟨?_, hsh.2⟩
    intro hideq
    have hkeyeq : p.1 = m.id ++ ".meta" := by rw [hsh.1, hideq]
    rcases List.mem_append.mp hp with h | h
    · exact hkey_l1 (hkeyeq ▸ List.mem_map_of_mem Prod.fst h)
    · exact hkey_l2 (hkeyeq ▸ List.mem_map_of_mem Prod.fst h)
  have hsnap : getSpooledFiles st = l1.map Prod.snd ++ m :: l2.map Prod.snd := by
    rw [getSpooledFiles, hsplit]
    simp
  have hl1 : ∀ f ∈ l1.map Prod.snd,
      f.id ≠ m.id ∧ f.filename = f.id ++ ".ndjson" := by
    intro f hf
    obtain ⟨p, hp, hpf⟩ := List.mem_map.mp hf
    exact hpf ▸ hother p (List.mem_append.mpr (Or.inl hp))
  have hl2 : ∀ f ∈ l2.map Prod.snd,
      f.id ≠ m.id ∧ f.filename = f.id ++ ".ndjson" := by
    intro f hf
    obtain ⟨p, hp, hpf⟩ := List.mem_map.mp hf
    exact hpf ▸ hother p (List.mem_append.mpr (Or.inr hp))
  have hlookup_st : alistLookup (m.id ++ ".meta") st.metaFiles = some m := by
    rw [hsplit]
    exact alistLookup_append_not_mem _ _ _ _ hkey_l1
  -- decompose the retry fold around the record m
  have hfold : processRetries retryAttempts retryInterval true forwardResult
      now st =
      (l2.map Prod.snd).foldl
        (retryStep retryAttempts retryInterval true forwardResult now)
        (retryStep retryAttempts retryInterval true forwardResult now
          ((l1.map Prod.snd).foldl
            (retryStep retryAttempts retryInterval true forwardResult now)
            (st, []))
          m) := by
    rw [processRetries, hsnap, List.foldl_append, List.foldl_cons]
  have hpre := retryFold_preserves_other retryAttempts retryInterval true
    forwardResult now m (l1.map Prod.snd) hl1 (st, [])
  obtain ⟨extra1, hext1, hext1p⟩ := hpre.2.2
  have hz1a : extra1.count (SpoolEvent.alertSent "high" m.id) = 0 :=
    List.count_eq_zero.mpr (fun h => (hext1p _ h).1 rfl)
  have hz1h : SpoolEvent.httpForward m.id ∉ extra1 :=
    fun h => (hext1p _ h).2 rfl
  constructor
  · intro hstatus htime hcount
    have hstep := processOne_transition retryAttempts retryInterval
      forwardResult now
      ((l1.map Prod.snd).foldl
        (retryStep retryAttempts retryInterval true forwardResult now)
        (st, [])).1 m hstatus htime hcount
    have hmid : retryStep retryAttempts retryInterval true forwardResult now
        ((l1.map Prod.snd).foldl
          (retryStep retryAttempts retryInterval true forwardResult now)
          (st, []))
        m =
        ({ ((l1.map Prod.snd).foldl
              (retryStep retryAttempts retryInterval true forwardResult now)
              (st, [])).1 with
            metaFiles := alistInsert (m.id ++ ".meta")
              { m with
                  status := "failed"
                  lastRetry := now
                  failureReason :=
                    "Exceeded maximum retry attempts - manual recovery required" }
              ((l1.map Prod.snd).foldl
                (retryStep retryAttempts retryInterval true forwardResult now)
                (st, [])).1.metaFiles },
         ((l1.map Prod.snd).foldl
            (retryStep retryAttempts retryInterval true forwardResult now)
            (st, [])).2 ++
           [SpoolEvent.alertSent "high" m.id,
            SpoolEvent.writeMeta (m.id ++ ".meta")
              ((l1.map Prod.snd).foldl
                (retryStep retryAttempts retryInterval true forwardResult now)
                (st, [])).1.locked]) := by
      rw [retryStep, hstep]
    have hpost := retryFold_preserves_other retryAttempts retryInterval true
      forwardResult now m (l2.map Prod.snd) hl2
      (retryStep retryAttempts retryInterval true forwardResult now
        ((l1.map Prod.snd).foldl
          (retryStep retryAttempts retryInterval true forwardResult now)
          (st, []))
        m)
    obtain ⟨extra2, hext2, hext2p⟩ := hpost.2.2
    have hz2a : extra2.count (SpoolEvent.alertSent "high" m.id) = 0 :=
      List.count_eq_zero.mpr (fun h => (hext2p _ h).1 rfl)
    have hz2h : SpoolEvent.httpForward m.id ∉ extra2 :=
      fun h => (hext2p _ h).2 rfl
    refine ⟨?_, ?_, ?_, ?_⟩
    · rw [hfold, hpost.1, hmid]
      exact alistLookup_insert_self _ _ _
    · rw [hfold, hpost.2.1, hmid]
      simpa using hpre.2.1
    · rw [hfold, hext2, hmid, hext1]
      simp only [List.count_append, hz1a, hz2a, List.nil_append]
      simp [List.count_cons, List.count_nil]
    · rw [hfold, hext2, hmid, hext1]
      simp only [List.mem_append, List.nil_append]
      push_neg
      exact ⟨⟨hz1h, by simp⟩, hz2h⟩
  · intro hstatus
    have hstep := processOne_failed_skip retryAttempts retryInterval true
      forwardResult now
      ((l1.map Prod.snd).foldl
        (retryStep retryAttempts retryInterval true forwardResult now)
        (st, [])).1 m hstatus
    have hmid : retryStep retryAttempts retryInterval true forwardResult now
        ((l1.map Prod.snd).foldl
          (retryStep retryAttempts retryInterval true forwardResult now)
          (st, []))
        m =
        (((l1.map Prod.snd).foldl
            (retryStep retryAttempts retryInterval true forwardResult now)
            (st, [])).1,
         ((l1.map Prod.snd).foldl
            (retryStep retryAttempts retryInterval true forwardResult now)
            (st, [])).2) := by
      rw [retryStep, hstep]
      simp
    have hpost := retryFold_preserves_other retryAttempts retryInterval true
      forwardResult now m (l2.map Prod.snd) hl2
      (retryStep retryAttempts retryInterval true forwardResult now
        ((l1.map Prod.snd).foldl
          (retryStep retryAttempts retryInterval true forwardResult now)
          (st, []))
        m)
    obtain ⟨extra2, hext2, hext2p⟩ := hpost.2.2
    have hz2a : SpoolEvent.alertSent "high" m.id ∉ extra2 :=
      fun h => (hext2p _ h).1 rfl
    have hz2h : SpoolEvent.httpForward m.id ∉ extra2 :=
      fun h => (hext2p _ h).2 rfl
    have hz1a' : SpoolEvent.alertSent "high" m.id ∉ extra1 :=
      fun h => (hext1p _ h).1 rfl
    refine ⟨?_, ?_, ?_, ?_⟩
    · rw [hfold, hpost.1, hmid]
      rw [hpre.1]
      exact hlookup_st
    · rw [hfold, hpost.2.1, hmid]
      simpa using hpre.2.1
    · rw [hfold, hext2, hmid, hext1]
      simp only [List.mem_append, List.nil_append]
      push_neg
      exact ⟨hz1a', hz2a⟩
    · rw [hfold, hext2, hmid, hext1]
      simp only [List.mem_append, List.nil_append]
      push_neg
      exact ⟨hz1h, hz2h⟩

/-- Witness for C4 at a concrete spool: one `"retrying"` record with
`retry_count = 3 = max_attempts` transitions to `"failed"` with exactly
one high alert and no HTTP attempt, files intact; a second tick on the
resulting `"failed"` record does nothing to it. -/
theorem c4_max_retries_transition_witness :
    (alistLookup "7_t1_d1.meta"
        (processRetries 3 10 true (fun _ => some "err") 50
          ⟨[("7_t1_d1.ndjson", [1, 2])],
           [("7_t1_d1.meta",
             ⟨"7_t1_d1", "t1", "d1", "7_t1_d1.ndjson", 2, 7, 30, 3, "retrying",
              "e"⟩)],
           2, false⟩).1.metaFiles =
      some ⟨"7_t1_d1", "t1", "d1", "7_t1_d1.ndjson", 2, 7, 50, 3, "failed",
        "Exceeded maximum retry attempts - manual recovery required"⟩) ∧
    ((processRetries 3 10 true (fun _ => some "err") 50
        ⟨[("7_t1_d1.ndjson", [1, 2])],
         [("7_t1_d1.meta",
           ⟨"7_t1_d1", "t1", "d1", "7_t1_d1.ndjson", 2, 7, 30, 3, "retrying",
            "e"⟩)],
         2, false⟩).2.count (SpoolEvent.alertSent "high" "7_t1_d1") = 1) ∧
    (SpoolEvent.alertSent "high" "7_t1_d1" ∉
      (processRetries 3 10 true (fun _ => some "err") 70
        ⟨[("7_t1_d1.ndjson", [1, 2])],
         [("7_t1_d1.meta",
           ⟨"7_t1_d1", "t1", "d1", "7_t1_d1.ndjson", 2, 7, 50, 3, "failed",
            "Exceeded maximum retry attempts - manual recovery required"⟩)],
         2, false⟩).2) := by
  have h1 := c4_max_retries_transition 3 10 (fun _ => some "err") 50
    ⟨[("7_t1_d1.ndjson", [1, 2])],
     [("7_t1_d1.meta",
       ⟨"7_t1_d1", "t1", "d1", "7_t1_d1.ndjson", 2, 7, 30, 3, "retrying",
        "e"⟩)],
     2, false⟩
    ⟨"7_t1_d1", "t1", "d1", "7_t1_d1.ndjson", 2, 7, 30, 3, "retrying", "e"⟩
    ⟨by decide, by decide⟩ (by decide)
  have h2 := c4_max_retries_transition 3 10 (fun _ => some "err") 70
    ⟨[("7_t1_d1.ndjson", [1, 2])],
     [("7_t1_d1.meta",
       ⟨"7_t1_d1", "t1", "d1", "7_t1_d1.ndjson", 2, 7, 50, 3, "failed",
        "Exceeded maximum retry attempts - manual recovery required"⟩)],
     2, false⟩
    ⟨"7_t1_d1", "t1", "d1", "7_t1_d1.ndjson", 2, 7, 50, 3, "failed",
     "Exceeded maximum retry attempts - manual recovery required"⟩
    ⟨by decide, by decide⟩ (by decide)
  have ht := h1.1 (by decide) (by decide) (by decide)
  exact ⟨ht.1, ht.2.2.1, (h2.2 (by decide)).2.2.1⟩

/-- C10: with spooling disabled, `SpoolData` returns nil immediately,
indistinguishable from a successful spool: the state (files and
`current_size`) is untouched and no event happens, so the failed batch's
data is silently discarded. -/
theorem c10_spoolData_disabled_silently_drops (maxSize : Int)
    (tenantID datasetID : String) (data : List Nat) (failureReason : String)
    (nowNanos : Nat) (st : SpoolState) :
    SpoolData false maxSize tenantID datasetID data failureReason nowNanos st =
      (SpoolDataResult.ok, st, []) := by
  rfl

theorem char_toNat_inj {a b : Char} (h : a.toNat = b.toNat) : a = b := by
  have := congrArg Char.ofNat h
  rwa [Char.ofNat_toNat, Char.ofNat_toNat] at this

theorem digitChar_toNat {n : Nat} (h : n < 10) : (digitChar n).toNat = 48 + n := by
  interval_cases n <;> decide

theorem isDigitChar_digitChar {n : Nat} (h : n < 10) :
    isDigitChar (digitChar n) = true := by
  interval_cases n <;> decide

theorem digitChar_ne_zero {n : Nat} (h1 : 1 ≤ n) (h2 : n < 10) :
    digitChar n ≠ '0' := by
  interval_cases n <;> decide

theorem hexVal_hexDigitChar {n : Nat} (h : n < 16) :
    hexVal (hexDigitChar n) = some n := by
  interval_cases n <;> decide

theorem natToChars_eq (n : Nat) :
    natToChars n = if n < 10 then [digitChar n]
      else natToChars (n / 10) ++ [digitChar (n % 10)] := by
  conv_lhs => rw [natToChars.eq_def]
  by_cases h : n < 10
  · rw [dif_pos h, if_pos h]
  · rw [dif_neg h, if_neg h]

theorem natToChars_shape (n : Nat) :
    ∃ c cs, natToChars n = c :: cs ∧ isDigitChar c = true ∧
      (1 ≤ n → c ≠ '0') ∧ ∀ x ∈ c :: cs, isDigitChar x = true := by
  induction n using Nat.strong_induction_on with
  | _ n ih =>
    by_cases h : n < 10
    · refine ⟨digitChar n, [], ?_, isDigitChar_digitChar h, ?_, ?_⟩
      · rw [natToChars_eq, if_pos h]
      · intro h1; exact digitChar_ne_zero h1 h
      · intro x hx
        simp only [List.mem_singleton] at hx
        exact hx ▸ isDigitChar_digitChar h
    · obtain ⟨c, cs, hshape, hdig, hnz, hall⟩ :=
        ih (n / 10) (Nat.div_lt_self (by omega) (by omega))
      refine ⟨c, cs ++ [digitChar (n % 10)], ?_, hdig, ?_, ?_⟩
      · rw [natToChars_eq, if_neg h, hshape]
        simp
      · intro _; exact hnz (by omega)
      · intro x hx
        rcases List.mem_cons.mp hx with h' | h'
        · exact h' ▸ hdig
        · rcases List.mem_append.mp h' with h'' | h''
          · exact hall x (List.mem_cons_of_mem _ h'')
          · simp only [List.mem_singleton] at h''
            exact h'' ▸ isDigitChar_digitChar (Nat.mod_lt _ (by omega))

theorem parseDigitsLoop_stop (rest : List Char) (acc : Nat)
    (h : numBoundary rest = true) : parseDigitsLoop rest acc = (acc, rest) := by
  cases rest with
  | nil => rfl
  | cons c cs =>
    simp only [numBoundary, Bool.not_eq_true', Bool.or_eq_false_iff] at h
    simp [parseDigitsLoop, h.1.1.1]

theorem parseDigitsLoop_append (n : Nat) (rest : List Char) (acc : Nat) :
    parseDigitsLoop (natToChars n ++ rest) acc =
      parseDigitsLoop rest (acc * 10 ^ (natToChars n).length + n) := by
  induction n using Nat.strong_induction_on generalizing rest acc with
  | _ n ih =>
    by_cases h : n < 10
    · rw [natToChars_eq, if_pos h]
      simp only [List.cons_append, List.nil_append, parseDigitsLoop,
        isDigitChar_digitChar h, if_pos, if_true, List.length_singleton,
        pow_one, digitChar_toNat h]
      congr 1
      omega
    · rw [natToChars_eq, if_neg h]
      rw [List.append_assoc, List.singleton_append,
        ih (n / 10) (Nat.div_lt_self (by omega) (by omega))]
      have hd : n % 10 < 10 := Nat.mod_lt _ (by omega)
      simp only [parseDigitsLoop, isDigitChar_digitChar hd, if_pos, if_true,
        digitChar_toNat hd, List.length_append, List.length_singleton]
      congr 1
      have hmod : 10 * (n / 10) + n % 10 = n := Nat.div_add_mod n 10
      have hpow : 10 ^ ((natToChars (n / 10)).length + 1) =
          10 ^ (natToChars (n / 10)).length * 10 := pow_succ 10 _
      rw [hpow]
      have : (acc * 10 ^ (natToChars (n / 10)).length + n / 10) * 10 +
          (48 + n % 10 - 48) =
          acc * (10 ^ (natToChars (n / 10)).length * 10) +
            (n / 10 * 10 + n % 10) := by ring_nf; omega
      rw [this]
      omega

theorem parseNumberBody_natToChars (n : Nat) (rest : List Char)
    (hb : numBoundary rest = true) :
    parseNumberBody (natToChars n ++ rest) = some (n, rest) := by
  by_cases h0 : n = 0
  · subst h0
    rw [natToChars_eq]
    simp only [Nat.lt_irrefl, if_pos, if_true, Nat.zero_lt_succ,
      List.cons_append, List.nil_append]
    show parseNumberBody ('0' :: rest) = some (0, rest)
    cases rest with
    | nil => rfl
    | cons d ds =>
      simp only [numBoundary, Bool.not_eq_true', Bool.or_eq_false_iff] at hb
      simp [parseNumberBody, hb.1.1.1]
  · obtain ⟨c, cs, hshape, hdig, hnz, _⟩ := natToChars_shape n
    have hc0 : c ≠ '0' := hnz (by omega)
    have hloop : parseDigitsLoop (natToChars n ++ rest) 0 = (n, rest) := by
      rw [parseDigitsLoop_append, parseDigitsLoop_stop _ _ hb]
      simp
    rw [hshape] at hloop ⊢
    simp only [List.cons_append, parseDigitsLoop, hdig, if_pos, if_true,
      Nat.zero_mul, Nat.zero_add] at hloop
    simp only [List.cons_append, parseNumberBody, hc0, if_neg, if_false, hdig,
      if_pos, if_true]
    exact congrArg some hloop

theorem parseNumber_natToChars (neg : Bool) (n : Nat) (rest : List Char)
    (hb : numBoundary rest = true) :
    parseNumber neg (natToChars n ++ rest) =
      some (.num (if neg then -(n : Int) else (n : Int)), rest) := by
  rw [parseNumber, parseNumberBody_natToChars n rest hb]
  cases rest with
  | nil => rfl
  | cons c cs =>
    simp only [numBoundary, Bool.not_eq_true', Bool.or_eq_false_iff,
      decide_eq_false_iff_not] at hb
    have : ¬(c = '.' ∨ c = 'e' ∨ c = 'E') := by
      push_neg
      exact ⟨hb.1.1.2, hb.1.2, hb.2⟩
    simp [this]

theorem skipWs_not_ws {c : Char} (cs : List Char) (h : isWsChar c = false) :
    skipWs (c :: cs) = c :: cs := by
  simp [skipWs, h]

theorem parseStringBody_cons (c : Char) (cs : List Char) :
    parseStringBody (c :: cs) =
      match strStep (c :: cs) with
      | .done rest => some ([], rest)
      | .fail => none
      | .emit ch extra =>
        (parseStringBody (cs.drop extra)).map (fun p => (ch :: p.1, p.2)) := by
  conv_lhs => rw [parseStringBody.eq_def]

theorem parseStringBody_quote (more : List Char) :
    parseStringBody ('"' :: more) = some ([], more) := by
  rw [parseStringBody_cons]
  have hs : strStep ('"' :: more) = .done more := by simp [strStep]
  rw [hs]

theorem parseStringBody_u (h1 h2 h3 h4 : Char) (a b c' d : Nat)
    (more : List Char) (e1 : hexVal h1 = some a) (e2 : hexVal h2 = some b)
    (e3 : hexVal h3 = some c') (e4 : hexVal h4 = some d)
    (hrange : ¬(0xD800 ≤ a * 4096 + b * 256 + c' * 16 + d ∧
      a * 4096 + b * 256 + c' * 16 + d ≤ 0xDFFF)) :
    parseStringBody ('\\' :: 'u' :: h1 :: h2 :: h3 :: h4 :: more) =
      (parseStringBody more).map (fun p =>
        (Char.ofNat (a * 4096 + b * 256 + c' * 16 + d) :: p.1, p.2)) := by
  have hno1 : ¬(0xD800 ≤ a * 4096 + b * 256 + c' * 16 + d ∧
      a * 4096 + b * 256 + c' * 16 + d ≤ 0xDBFF) := by omega
  have hno2 : ¬(0xDC00 ≤ a * 4096 + b * 256 + c' * 16 + d ∧
      a * 4096 + b * 256 + c' * 16 + d ≤ 0xDFFF) := by omega
  have hs : strStep ('\\' :: 'u' :: h1 :: h2 :: h3 :: h4 :: more) =
      .emit (Char.ofNat (a * 4096 + b * 256 + c' * 16 + d)) 5 := by
    simp [strStep, e1, e2, e3, e4, hno1, hno2]
  rw [parseStringBody_cons, hs]
  rfl

theorem parseStringBody_esc (e c' : Char) (more : List Char) (he : e ≠ 'u')
    (hesc : simpleEscape e = some c') :
    parseStringBody ('\\' :: e :: more) =
      (parseStringBody more).map (fun p => (c' :: p.1, p.2)) := by
  have hs : strStep ('\\' :: e :: more) = .emit c' 1 := by
    simp [strStep, he, hesc]
  rw [parseStringBody_cons, hs]
  rfl

theorem parseStringBody_normal (c : Char) (more : List Char) (h1 : c ≠ '"')
    (h2 : c ≠ '\\') (h3 : ¬c.toNat < 32) :
    parseStringBody (c :: more) =
      (parseStringBody more).map (fun p => (c :: p.1, p.2)) := by
  have hs : strStep (c :: more) = .emit c 0 := by
    simp [strStep, h1, h2, h3]
  rw [parseStringBody_cons, hs]
  simp

theorem escapeChar_parse (c : Char) (more : List Char) :
    parseStringBody (escapeChar c ++ more) =
      (parseStringBody more).map (fun p => (c :: p.1, p.2)) := by
  by_cases hq : c = '"'
  · subst hq
    rw [escapeChar]
    simp only [if_pos rfl, List.cons_append, List.nil_append]
    exact parseStringBody_esc _ _ _ (by decide) (by decide)
  · by_cases hbs : c = '\\'
    · subst hbs
      rw [escapeChar]
      simp only [if_neg (by decide : ¬('\\' : Char) = '"'), if_pos rfl,
        List.cons_append, List.nil_append]
      exact parseStringBody_esc _ _ _ (by decide) (by decide)
    · by_cases hn : c = '\n'
      · subst hn
        rw [escapeChar]
        simp only [if_neg (by decide : ¬('\n' : Char) = '"'),
          if_neg (by decide : ¬('\n' : Char) = '\\'), if_pos rfl,
          List.cons_append, List.nil_append]
        exact parseStringBody_esc _ _ _ (by decide) (by decide)
      · by_cases hr : c = '\r'
        · subst hr
          rw [escapeChar]
          simp only [if_neg (by decide : ¬('\r' : Char) = '"'),
            if_neg (by decide : ¬('\r' : Char) = '\\'),
            if_neg (by decide : ¬('\r' : Char) = '\n'), if_pos rfl,
            List.cons_append, List.nil_append]
          exact parseStringBody_esc _ _ _ (by decide) (by decide)
        · by_cases ht : c = '\t'
          · subst ht
            rw [escapeChar]
            simp only [if_neg (by decide : ¬('\t' : Char) = '"'),
              if_neg (by decide : ¬('\t' : Char) = '\\'),
              if_neg (by decide : ¬('\t' : Char) = '\n'),
              if_neg (by decide : ¬('\t' : Char) = '\r'), if_pos rfl,
              List.cons_append, List.nil_append]
            exact parseStringBody_esc _ _ _ (by decide) (by decide)
          · by_cases hc32 : c.toNat < 32
            · rw [escapeChar]
              rw [if_neg hq, if_neg hbs, if_neg hn, if_neg hr, if_neg ht,
                if_pos hc32]
              have := parseStringBody_u '0' '0'
                (hexDigitChar (c.toNat / 16)) (hexDigitChar (c.toNat % 16))
                0 0 (c.toNat / 16) (c.toNat % 16) more (by decide) (by decide)
                (hexVal_hexDigitChar (by omega))
                (hexVal_hexDigitChar (by omega)) (by omega)
              simp only [List.cons_append, List.nil_append] at this ⊢
              rw [this]
              have hcp : 0 * 4096 + 0 * 256 + c.toNat / 16 * 16 + c.toNat % 16 =
                  c.toNat := by omega
              rw [hcp, Char.ofNat_toNat]
            · by_cases hlt : c = '<'
              · subst hlt
                have he : escapeChar '<' = ['\\', 'u', '0', '0', '3', 'c'] := by
                  decide
                rw [he]
                have := parseStringBody_u '0' '0' '3' 'c' 0 0 3 12 more
                  (by decide) (by decide) (by decide) (by decide) (by omega)
                simp only [List.cons_append, List.nil_append] at this ⊢
                rw [this]
              · by_cases hgt : c = '>'
                · subst hgt
                  have he : escapeChar '>' = ['\\', 'u', '0', '0', '3', 'e'] := by
                    decide
                  rw [he]
                  have := parseStringBody_u '0' '0' '3' 'e' 0 0 3 14 more
                    (by decide) (by decide) (by decide) (by decide) (by omega)
                  simp only [List.cons_append, List.nil_append] at this ⊢
                  rw [this]
                · by_cases hamp : c = '&'
                  · subst hamp
                    have he : escapeChar '&' = ['\\', 'u', '0', '0', '2', '6'] := by
                      decide
                    rw [he]
                    have := parseStringBody_u '0' '0' '2' '6' 0 0 2 6 more
                      (by decide) (by decide) (by decide) (by decide) (by omega)
                    simp only [List.cons_append, List.nil_append] at this ⊢
                    rw [this]
                  · by_cases h28 : c.toNat = 0x2028
                    · rw [escapeChar]
                      rw [if_neg hq, if_neg hbs, if_neg hn, if_neg hr,
                        if_neg ht, if_neg hc32, if_neg hlt, if_neg hgt,
                        if_neg hamp, if_pos h28]
                      have := parseStringBody_u '2' '0' '2' '8' 2 0 2 8 more
                        (by decide) (by decide) (by decide) (by decide)
                        (by omega)
                      simp only [List.cons_append, List.nil_append] at this ⊢
                      rw [this]
                      have : (2 * 4096 + 0 * 256 + 2 * 16 + 8 : Nat) =
                          c.toNat := by omega
                      rw [this, Char.ofNat_toNat]
                    · by_cases h29 : c.toNat = 0x2029
                      · rw [escapeChar]
                        rw [if_neg hq, if_neg hbs, if_neg hn, if_neg hr,
                          if_neg ht, if_neg hc32, if_neg hlt, if_neg hgt,
                          if_neg hamp, if_neg h28, if_pos h29]
                        have := parseStringBody_u '2' '0' '2' '9' 2 0 2 9 more
                          (by decide) (by decide) (by decide) (by decide)
                          (by omega)
                        simp only [List.cons_append, List.nil_append] at this ⊢
                        rw [this]
                        have : (2 * 4096 + 0 * 256 + 2 * 16 + 9 : Nat) =
                            c.toNat := by omega
                        rw [this, Char.ofNat_toNat]
                      · rw [escapeChar]
                        rw [if_neg hq, if_neg hbs, if_neg hn, if_neg hr,
                          if_neg ht, if_neg hc32, if_neg hlt, if_neg hgt,
                          if_neg hamp, if_neg h28, if_neg h29]
                        simp only [List.cons_append, List.nil_append]
                        exact parseStringBody_normal c more hq hbs hc32

theorem parseStringBody_escapeList (s : List Char) (rest : List Char) :
    parseStringBody (escapeList s ++ '"' :: rest) = some (s, rest) := by
  induction s with
  | nil =>
    show parseStringBody ('"' :: rest) = some ([], rest)
    exact parseStringBody_quote rest
  | cons c s' ih =>
    have hfold : escapeList (c :: s') = escapeChar c ++ escapeList s' := rfl
    rw [hfold, List.append_assoc, escapeChar_parse, ih]
    rfl

theorem charListLt_cons (x y : Char) (xs ys : List Char) :
    charListLt (x :: xs) (y :: ys) =
      if x.toNat < y.toNat then true
      else if y.toNat < x.toNat then false
      else charListLt xs ys := rfl

theorem charListLt_irrefl (a : List Char) : charListLt a a = false := by
  induction a with
  | nil => rfl
  | cons x xs ih => simp [charListLt_cons, ih]

theorem charListLt_asymm {a b : List Char} (h : charListLt a b = true) :
    charListLt b a = false := by
  induction a generalizing b with
  | nil =>
    cases b with
    | nil => simp [charListLt] at h
    | cons y ys => rfl
  | cons x xs ih =>
    cases b with
    | nil => simp [charListLt] at h
    | cons y ys =>
      rw [charListLt_cons] at h
      rw [charListLt_cons]
      by_cases h1 : x.toNat < y.toNat
      · rw [if_neg (by omega), if_pos h1]
      · rw [if_neg h1] at h
        by_cases h2 : y.toNat < x.toNat
        · rw [if_pos h2] at h
          exact absurd h (by simp)
        · rw [if_neg h2] at h
          rw [if_neg (by omega), if_neg (by omega)]
          exact ih h

theorem charListLt_trans {a b c : List Char} (h1 : charListLt a b = true)
    (h2 : charListLt b c = true) : charListLt a c = true := by
  induction a generalizing b c with
  | nil =>
    cases b with
    | nil => simp [charListLt] at h1
    | cons y ys =>
      cases c with
      | nil => simp [charListLt] at h2
      | cons z zs => rfl
  | cons x xs ih =>
    cases b with
    | nil => simp [charListLt] at h1
    | cons y ys =>
      cases c with
      | nil => simp [charListLt] at h2
      | cons z zs =>
        rw [charListLt_cons] at h1 h2 ⊢
        by_cases hxy : x.toNat < y.toNat
        · by_cases hyz : y.toNat < z.toNat
          · rw [if_pos (by omega)]
          · rw [if_neg hyz] at h2
            by_cases hzy : z.toNat < y.toNat
            · rw [if_pos hzy] at h2
              exact absurd h2 (by simp)
            · rw [if_pos (by omega)]
        · rw [if_neg hxy] at h1
          by_cases hyx : y.toNat < x.toNat
          · rw [if_pos hyx] at h1
            exact absurd h1 (by simp)
          · rw [if_neg hyx] at h1
            by_cases hyz : y.toNat < z.toNat
            · rw [if_pos (by omega)]
            · rw [if_neg hyz] at h2
              by_cases hzy : z.toNat < y.toNat
              · rw [if_pos hzy] at h2
                exact absurd h2 (by simp)
              · rw [if_neg hzy] at h2
                rw [if_neg (by omega), if_neg (by omega)]
                exact ih h1 h2

theorem charListLt_connex {a b : List Char} (h : a ≠ b) :
    charListLt a b = true ∨ charListLt b a = true := by
  induction a generalizing b with
  | nil =>
    cases b with
    | nil => exact absurd rfl h
    | cons y ys => exact Or.inl rfl
  | cons x xs ih =>
    cases b with
    | nil => exact Or.inr rfl
    | cons y ys =>
      by_cases hxy : x.toNat < y.toNat
      · exact Or.inl (by rw [charListLt_cons, if_pos hxy])
      · by_cases hyx : y.toNat < x.toNat
        · exact Or.inr (by rw [charListLt_cons, if_pos hyx])
        · have hx : x = y := char_toNat_inj (by omega)
          subst hx
          have hne : xs ≠ ys := by
            intro hc; exact h (by rw [hc])
          rcases ih hne with h' | h'
          · left
            rw [charListLt_cons, if_neg hxy, if_neg hyx]
            exact h'
          · right
            rw [charListLt_cons, if_neg hyx, if_neg hxy]
            exact h'

theorem insertMember_gt_append {k : List Char} {v : Json}
    {acc : List (List Char × Json)}
    (h : ∀ p ∈ acc, charListLt p.1 k = true) :
    insertMember k v acc = acc ++ [(k, v)] := by
  induction acc with
  | nil => rfl
  | cons p rest ih =>
    obtain ⟨k', v'⟩ := p
    have hp : charListLt k' k = true := h (k', v') (by simp)
    have h1 : charListLt k k' = false := charListLt_asymm hp
    have h2 : k ≠ k' := by
      intro hc
      subst hc
      rw [charListLt_irrefl] at hp
      exact absurd hp (by simp)
    rw [insertMember, h1, if_neg h2]
    simp only [Bool.false_eq_true, if_false, List.cons_append]
    congr 1
    exact ih (fun p hp' => h p (List.mem_cons_of_mem _ hp'))

theorem jms_cons {kv : List Char × Json} {rest : List (List Char × Json)}
    (h : jsonMembersSortedCanonical (kv :: rest) = true) :
    jsonCanonical kv.2 = true ∧ jsonMembersSortedCanonical rest = true ∧
      ∀ kv' rest', rest = kv' :: rest' → charListLt kv.1 kv'.1 = true := by
  rw [jsonMembersSortedCanonical.eq_def] at h
  simp only [Bool.and_eq_true] at h
  refine ⟨h.1.2, h.2, ?_⟩
  intro kv' rest' hrest
  subst hrest
  exact h.1.1

theorem jms_cons_intro {kv : List Char × Json}
    {rest : List (List Char × Json)} (h1 : jsonCanonical kv.2 = true)
    (h2 : jsonMembersSortedCanonical rest = true)
    (h3 : ∀ kv' rest', rest = kv' :: rest' → charListLt kv.1 kv'.1 = true) :
    jsonMembersSortedCanonical (kv :: rest) = true := by
  rw [jsonMembersSortedCanonical.eq_def]
  simp only [Bool.and_eq_true]
  refine ⟨⟨?_, h1⟩, h2⟩
  cases rest with
  | nil => rfl
  | cons kv' rest' => exact h3 kv' rest' rfl

theorem jms_append_lt {l1 l2 : List (List Char × Json)}
    {p : List Char × Json}
    (h : jsonMembersSortedCanonical (l1 ++ p :: l2) = true) :
    ∀ q ∈ l1, charListLt q.1 p.1 = true := by
  induction l1 with
  | nil => intro q hq; simp at hq
  | cons r rest ih =>
    intro q hq
    rw [List.cons_append] at h
    have hinv := jms_cons h
    rcases List.mem_cons.mp hq with h' | h'
    · subst h'
      cases rest with
      | nil =>
        exact hinv.2.2 p l2 (by simp)
      | cons r' rest' =>
        have hqr : charListLt q.1 r'.1 = true :=
          hinv.2.2 r' (rest' ++ p :: l2) (by simp)
        have := ih hinv.2.1 r' (by simp)
        exact charListLt_trans hqr this
    · exact ih hinv.2.1 q h'

theorem jms_extract_val {l1 l2 : List (List Char × Json)}
    {p : List Char × Json}
    (h : jsonMembersSortedCanonical (l1 ++ p :: l2) = true) :
    jsonCanonical p.2 = true ∧ jsonMembersSortedCanonical (p :: l2) = true := by
  induction l1 with
  | nil => exact ⟨(jms_cons h).1, h⟩
  | cons r rest ih =>
    rw [List.cons_append] at h
    exact ih (jms_cons h).2.1

theorem serialize_head (v : Json) :
    ∃ c cs', serialize v = c :: cs' ∧ isValHead c = true := by
  cases v with
  | null => exact ⟨'n', _, rfl, by decide⟩
  | bool b => cases b with
    | true => exact ⟨'t', _, rfl, by decide⟩
    | false => exact ⟨'f', _, rfl, by decide⟩
  | num n =>
    show ∃ c cs', intToChars n = c :: cs' ∧ isValHead c = true
    rw [intToChars]
    by_cases h : n < 0
    · rw [if_pos h]
      exact ⟨'-', _, rfl, by decide⟩
    · rw [if_neg h]
      obtain ⟨c, cs, hshape, hdig, _, _⟩ := natToChars_shape n.natAbs
      exact ⟨c, cs, hshape, by simp [isValHead, hdig]⟩
  | str s => exact ⟨'"', _, rfl, by decide⟩
  | arr l => cases l with
    | nil => exact ⟨'[', _, rfl, by decide⟩
    | cons x xs => exact ⟨'[', _, rfl, by decide⟩
  | obj l => cases l with
    | nil => exact ⟨'\x7b', _, rfl, by decide⟩
    | cons kv rest => exact ⟨'\x7b', _, rfl, by decide⟩

theorem isValHead_facts {c : Char} (h : isValHead c = true) :
    isWsChar c = false ∧ c ≠ ']' ∧ c ≠ '\x7d' := by
  simp only [isValHead, Bool.or_eq_true, decide_eq_true_eq] at h
  rcases h with ((((((h | h) | h) | h) | h) | h) | h) | h
  all_goals first
    | (subst h; exact ⟨by decide, by decide, by decide⟩)
    | (simp only [isDigitChar, Bool.and_eq_true, decide_eq_true_eq] at h
       refine ⟨?_, ?_, ?_⟩
       · rw [Bool.eq_false_iff]
         intro hws
         simp only [isWsChar, Bool.or_eq_true, decide_eq_true_eq] at hws
         rcases hws with ((hws | hws) | hws) | hws <;>
           (subst hws; exact absurd h (by decide))
       · intro hc; subst hc; exact absurd h (by decide)
       · intro hc; subst hc; exact absurd h (by decide))

theorem serialize_null : serialize .null = ['n', 'u', 'l', 'l'] := by
  rw [serialize.eq_def]

theorem serialize_true : serialize (.bool true) = ['t', 'r', 'u', 'e'] := by
  rw [serialize.eq_def]
  rfl

theorem serialize_false : serialize (.bool false) = ['f', 'a', 'l', 's', 'e'] := by
  rw [serialize.eq_def]
  rfl

theorem serialize_num (n : Int) : serialize (.num n) = intToChars n := by
  rw [serialize.eq_def]

theorem serialize_str (s : List Char) :
    serialize (.str s) = '"' :: (escapeList s ++ ['"']) := by
  rw [serialize.eq_def]

theorem serialize_arr_nil : serialize (.arr []) = ['[', ']'] := by
  rw [serialize.eq_def]

theorem serialize_arr_cons (x : Json) (xs : List Json) :
    serialize (.arr (x :: xs)) =
      '[' :: (serialize x ++ serializeArrTail xs ++ [']']) := by
  rw [serialize.eq_def]

theorem serialize_obj_nil : serialize (.obj []) = ['\x7b', '\x7d'] := by
  rw [serialize.eq_def]

theorem serialize_obj_cons (kv : List Char × Json)
    (rest : List (List Char × Json)) :
    serialize (.obj (kv :: rest)) =
      '\x7b' :: (serializeMember kv ++ serializeObjTail rest ++ ['\x7d']) := by
  rw [serialize.eq_def]

theorem serializeArrTail_nil : serializeArrTail [] = [] := by
  rw [serializeArrTail.eq_def]

theorem serializeArrTail_cons (x : Json) (xs : List Json) :
    serializeArrTail (x :: xs) = ',' :: (serialize x ++ serializeArrTail xs) := by
  rw [serializeArrTail.eq_def]

theorem serializeMember_eq (k : List Char) (v : Json) :
    serializeMember (k, v) = '"' :: (escapeList k ++ ['"', ':'] ++ serialize v) := by
  rw [serializeMember.eq_def]

theorem serializeObjTail_nil : serializeObjTail [] = [] := by
  rw [serializeObjTail.eq_def]

theorem serializeObjTail_cons (kv : List Char × Json)
    (rest : List (List Char × Json)) :
    serializeObjTail (kv :: rest) = ',' :: (serializeMember kv ++ serializeObjTail rest) := by
  rw [serializeObjTail.eq_def]

theorem jsize_arr (l : List Json) : jsize (.arr l) = 1 + jsizeElems l := by
  rw [jsize.eq_def]

theorem jsize_obj (l : List (List Char × Json)) :
    jsize (.obj l) = 1 + jsizeMembers l := by
  rw [jsize.eq_def]

theorem jsizeElems_cons (x : Json) (xs : List Json) :
    jsizeElems (x :: xs) = 1 + jsize x + jsizeElems xs := by
  rw [jsizeElems.eq_def]

theorem jsizeMembers_cons (kv : List Char × Json)
    (rest : List (List Char × Json)) :
    jsizeMembers (kv :: rest) = 1 + jsize kv.2 + jsizeMembers rest := by
  rw [jsizeMembers.eq_def]

theorem jsize_pos (v : Json) : 1 ≤ jsize v := by
  cases v <;> simp [jsize.eq_def]

theorem jsonCanonical_arr (l : List Json) :
    jsonCanonical (.arr l) = jsonListCanonical l := by
  rw [jsonCanonical.eq_def]

theorem jsonCanonical_obj (l : List (List Char × Json)) :
    jsonCanonical (.obj l) = jsonMembersSortedCanonical l := by
  rw [jsonCanonical.eq_def]

theorem jsonListCanonical_cons (x : Json) (xs : List Json) :
    jsonListCanonical (x :: xs) = (jsonCanonical x && jsonListCanonical xs) := by
  rw [jsonListCanonical.eq_def]

theorem insertMember_head (k : List Char) (v : Json)
    (rest : List (List Char × Json)) :
    ∃ h' t', insertMember k v rest = h' :: t' ∧
      (h'.1 = k ∨ ∃ rr, rest = h' :: rr) := by
  cases rest with
  | nil => exact ⟨(k, v), [], rfl, Or.inl rfl⟩
  | cons p rr =>
    obtain ⟨k', v'⟩ := p
    rw [insertMember]
    by_cases h1 : charListLt k k' = true
    · rw [if_pos h1]
      exact ⟨(k, v), _, rfl, Or.inl rfl⟩
    · rw [if_neg h1]
      by_cases h2 : k = k'
      · rw [if_pos h2]
        exact ⟨(k, v), _, rfl, Or.inl rfl⟩
      · rw [if_neg h2]
        exact ⟨(k', v'), _, rfl, Or.inr ⟨rr, rfl⟩⟩

theorem insertMember_jms {k : List Char} {v : Json}
    {acc : List (List Char × Json)}
    (hs : jsonMembersSortedCanonical acc = true) (hv : jsonCanonical v = true) :
    jsonMembersSortedCanonical (insertMember k v acc) = true := by
  induction acc with
  | nil =>
    refine jms_cons_intro hv (by decide) ?_
    intro kv' rest' h
    simp at h
  | cons p rest ih =>
    obtain ⟨k', v'⟩ := p
    have hinv := jms_cons hs
    rw [insertMember]
    by_cases h1 : charListLt k k' = true
    · rw [if_pos h1]
      refine jms_cons_intro hv hs ?_
      intro kv' rest' h
      injection h with hh ht
      rw [← hh]
      exact h1
    · rw [if_neg h1]
      by_cases h2 : k = k'
      · rw [if_pos h2]
        subst h2
        refine jms_cons_intro hv hinv.2.1 ?_
        intro kv' rest' h
        exact hinv.2.2 kv' rest' h
      · rw [if_neg h2]
        refine jms_cons_intro hinv.1 (ih hinv.2.1) ?_
        intro kv' rest' h
        obtain ⟨h', t', hins, hcase⟩ := insertMember_head k v rest
        rw [hins] at h
        injection h with hh ht
        rcases hcase with hc | ⟨rr, hc⟩
        · rw [← hh, hc]
          rcases charListLt_connex h2 with hlt | hlt
          · exact absurd hlt h1
          · exact hlt
        · rw [← hh]
          exact hinv.2.2 h' rr hc

theorem digit_head_facts {c : Char} (h : isDigitChar c = true) :
    c ≠ 'n' ∧ c ≠ 't' ∧ c ≠ 'f' ∧ c ≠ '"' ∧ c ≠ '-' ∧ c ≠ '[' ∧ c ≠ '\x7b' := by
  refine ⟨?_, ?_, ?_, ?_, ?_, ?_, ?_⟩ <;>
    (intro hc; subst hc; exact absurd h (by decide))

theorem numBoundary_arrTail (xs : List Json) (rest : List Char) :
    numBoundary (serializeArrTail xs ++ ']' :: rest) = true := by
  cases xs with
  | nil => rw [serializeArrTail_nil]; rfl
  | cons y ys => rw [serializeArrTail_cons]; rfl

theorem numBoundary_objTail (xs : List (List Char × Json)) (rest : List Char) :
    numBoundary (serializeObjTail xs ++ '\x7d' :: rest) = true := by
  cases xs with
  | nil => rw [serializeObjTail_nil]; rfl
  | cons kv ys =>
    obtain ⟨k, v⟩ := kv
    rw [serializeObjTail_cons]; rfl

theorem skipWs_serialize (v : Json) (t : List Char) :
    skipWs (serialize v ++ t) = serialize v ++ t := by
  obtain ⟨c, cs, hshape, hhead⟩ := serialize_head v
  rw [hshape, List.cons_append]
  exact skipWs_not_ws _ (isValHead_facts hhead).1

theorem skipWs_arrTail (xs : List Json) (rest : List Char) :
    skipWs (serializeArrTail xs ++ ']' :: rest) =
      serializeArrTail xs ++ ']' :: rest := by
  cases xs with
  | nil => rw [serializeArrTail_nil]; rfl
  | cons y ys =>
    rw [serializeArrTail_cons, List.cons_append]
    exact skipWs_not_ws _ (by decide)

theorem skipWs_objTail (xs : List (List Char × Json)) (rest : List Char) :
    skipWs (serializeObjTail xs ++ '\x7d' :: rest) =
      serializeObjTail xs ++ '\x7d' :: rest := by
  cases xs with
  | nil => rw [serializeObjTail_nil]; rfl
  | cons kv ys =>
    rw [serializeObjTail_cons, List.cons_append]
    exact skipWs_not_ws _ (by decide)

theorem parseVal_succ_null (fuel : Nat) (rest : List Char) :
    parseVal (fuel + 1) ('n' :: 'u' :: 'l' :: 'l' :: rest) =
      some (.null, rest) := rfl

theorem parseVal_succ_true (fuel : Nat) (rest : List Char) :
    parseVal (fuel + 1) ('t' :: 'r' :: 'u' :: 'e' :: rest) =
      some (.bool true, rest) := rfl

theorem parseVal_succ_false (fuel : Nat) (rest : List Char) :
    parseVal (fuel + 1) ('f' :: 'a' :: 'l' :: 's' :: 'e' :: rest) =
      some (.bool false, rest) := rfl

theorem parseVal_succ_quote (fuel : Nat) (rest : List Char) :
    parseVal (fuel + 1) ('"' :: rest) =
      (parseStringBody rest).map (fun p => (.str p.1, p.2)) := rfl

theorem parseVal_succ_minus (fuel : Nat) (rest : List Char) :
    parseVal (fuel + 1) ('-' :: rest) = parseNumber true rest := rfl

theorem parseVal_succ_lbrack (fuel : Nat) (rest : List Char) :
    parseVal (fuel + 1) ('[' :: rest) =
      (match skipWs rest with
       | ']' :: rest₂ => some (.arr [], rest₂)
       | rest₁ => (parseElems fuel rest₁).map (fun p => (.arr p.1, p.2))) := rfl

theorem parseVal_succ_lbrace (fuel : Nat) (rest : List Char) :
    parseVal (fuel + 1) ('\x7b' :: rest) =
      (match skipWs rest with
       | '\x7d' :: rest₂ => some (.obj [], rest₂)
       | rest₁ =>
         (parseMembers fuel [] rest₁).map (fun p => (.obj p.1, p.2))) := rfl

theorem parseVal_succ_cons (fuel : Nat) (c : Char) (rest : List Char) :
    parseVal (fuel + 1) (c :: rest) =
      (if c = 'n' then
        match rest with
        | 'u' :: 'l' :: 'l' :: rest' => some (.null, rest')
        | _ => none
      else if c = 't' then
        match rest with
        | 'r' :: 'u' :: 'e' :: rest' => some (.bool true, rest')
        | _ => none
      else if c = 'f' then
        match rest with
        | 'a' :: 'l' :: 's' :: 'e' :: rest' => some (.bool false, rest')
        | _ => none
      else if c = '"' then
        (parseStringBody rest).map (fun p => (.str p.1, p.2))
      else if c = '-' then parseNumber true rest
      else if isDigitChar c then parseNumber false (c :: rest)
      else if c = '[' then
        match skipWs rest with
        | ']' :: rest₂ => some (.arr [], rest₂)
        | rest₁ => (parseElems fuel rest₁).map (fun p => (.arr p.1, p.2))
      else if c = '\x7b' then
        match skipWs rest with
        | '\x7d' :: rest₂ => some (.obj [], rest₂)
        | rest₁ => (parseMembers fuel [] rest₁).map (fun p => (.obj p.1, p.2))
      else none) := rfl

theorem parseVal_succ_digit (fuel : Nat) (c : Char) (rest : List Char)
    (h : isDigitChar c = true) :
    parseVal (fuel + 1) (c :: rest) = parseNumber false (c :: rest) := by
  obtain ⟨h1, h2, h3, h4, h5, _, _⟩ := digit_head_facts h
  rw [parseVal_succ_cons]
  rw [if_neg h1, if_neg h2, if_neg h3, if_neg h4, if_neg h5, if_pos h]

theorem parseElems_succ (fuel : Nat) (cs : List Char) :
    parseElems (fuel + 1) cs =
      match parseVal fuel cs with
      | none => none
      | some (v, rest) =>
        match skipWs rest with
        | ',' :: rest₂ =>
          (parseElems fuel (skipWs rest₂)).map (fun p => (v :: p.1, p.2))
        | ']' :: rest₂ => some ([v], rest₂)
        | _ => none := rfl

theorem parseMembers_succ (fuel : Nat) (acc : List (List Char × Json))
    (cs₁ : List Char) :
    parseMembers (fuel + 1) acc ('"' :: cs₁) =
      match parseStringBody cs₁ with
      | none => none
      | some (k, cs₂) =>
        match skipWs cs₂ with
        | ':' :: cs₃ =>
          match parseVal fuel (skipWs cs₃) with
          | none => none
          | some (v, cs₄) =>
            match skipWs cs₄ with
            | ',' :: cs₅ => parseMembers fuel (insertMember k v acc) (skipWs cs₅)
            | '\x7d' :: cs₅ => some (insertMember k v acc, cs₅)
            | _ => none
        | _ => none := rfl

theorem parseElems_step (fuel : Nat) (cs : List Char) (v : Json)
    (r : List Char) (h : parseVal fuel cs = some (v, r)) :
    parseElems (fuel + 1) cs =
      match skipWs r with
      | ',' :: rest₂ =>
        (parseElems fuel (skipWs rest₂)).map (fun p => (v :: p.1, p.2))
      | ']' :: rest₂ => some ([v], rest₂)
      | _ => none := by
  rw [parseElems_succ, h]

theorem parseMembers_step (fuel : Nat) (acc : List (List Char × Json))
    (cs₁ : List Char) (k : List Char) (cs₂ : List Char)
    (h : parseStringBody cs₁ = some (k, cs₂)) :
    parseMembers (fuel + 1) acc ('"' :: cs₁) =
      match skipWs cs₂ with
      | ':' :: cs₃ =>
        match parseVal fuel (skipWs cs₃) with
        | none => none
        | some (v, cs₄) =>
          match skipWs cs₄ with
          | ',' :: cs₅ => parseMembers fuel (insertMember k v acc) (skipWs cs₅)
          | '\x7d' :: cs₅ => some (insertMember k v acc, cs₅)
          | _ => none
      | _ => none := by
  rw [parseMembers_succ, h]

theorem arrBranch_default (fuel : Nat) (c₀ : Char) (t : List Char)
    (h : c₀ ≠ ']') :
    (match c₀ :: t with
     | ']' :: rest₂ => some (Json.arr [], rest₂)
     | rest₁ => (parseElems fuel rest₁).map (fun p => (Json.arr p.1, p.2))) =
      (parseElems fuel (c₀ :: t)).map (fun p => (Json.arr p.1, p.2)) := by
  split
  · rename_i heq
    injection heq with hc _
    exact absurd hc h
  · rfl

theorem objBranch_default (fuel : Nat) (c₀ : Char) (t : List Char)
    (h : c₀ ≠ '\x7d') :
    (match c₀ :: t with
     | '\x7d' :: rest₂ => some (Json.obj [], rest₂)
     | rest₁ => (parseMembers fuel [] rest₁).map (fun p => (Json.obj p.1, p.2))) =
      (parseMembers fuel [] (c₀ :: t)).map (fun p => (Json.obj p.1, p.2)) := by
  split
  · rename_i heq
    injection heq with hc _
    exact absurd hc h
  · rfl

theorem parser_roundtrip (fuel : Nat) :
    (∀ v rest, jsonCanonical v = true → jsize v ≤ fuel →
      numBoundary rest = true →
      parseVal fuel (serialize v ++ rest) = some (v, rest)) ∧
    (∀ x xs rest, jsonListCanonical (x :: xs) = true →
      jsizeElems (x :: xs) ≤ fuel →
      parseElems fuel (serialize x ++ serializeArrTail xs ++ ']' :: rest) =
        some (x :: xs, rest)) ∧
    (∀ kv tail acc rest,
      jsonMembersSortedCanonical (acc ++ kv :: tail) = true →
      jsizeMembers (kv :: tail) ≤ fuel →
      parseMembers fuel acc
          (serializeMember kv ++ serializeObjTail tail ++ '\x7d' :: rest) =
        some (acc ++ kv :: tail, rest)) := by
  induction fuel with
  | zero =>
    refine ⟨?_, ?_, ?_⟩
    · intro v rest _ hsz _
      have := jsize_pos v
      omega
    · intro x xs rest _ hsz
      rw [jsizeElems_cons] at hsz
      omega
    · intro kv tail acc rest _ hsz
      rw [jsizeMembers_cons] at hsz
      omega
  | succ fuel ih =>
    obtain ⟨ihP, ihQ, ihR⟩ := ih
    refine ⟨?_, ?_, ?_⟩
    · -- parseVal round-trips one serialized value
      intro v rest hcan hsz hb
      cases v with
      | null =>
        rw [serialize_null]
        exact parseVal_succ_null fuel rest
      | bool b =>
        cases b with
        | true =>
          rw [serialize_true]
          exact parseVal_succ_true fuel rest
        | false =>
          rw [serialize_false]
          exact parseVal_succ_false fuel rest
      | num n =>
        rw [serialize_num, intToChars]
        by_cases hneg : n < 0
        · rw [if_pos hneg, List.cons_append, parseVal_succ_minus,
            parseNumber_natToChars true n.natAbs rest hb]
          have hval : (if true then -((n.natAbs : Int)) else ((n.natAbs : Int))) =
              n := by
            rw [if_pos rfl]
            omega
          rw [hval]
        · rw [if_neg hneg]
          obtain ⟨c, cs, hshape, hdig, _, _⟩ := natToChars_shape n.natAbs
          rw [hshape, List.cons_append,
            parseVal_succ_digit fuel c _ hdig, ← List.cons_append, ← hshape,
            parseNumber_natToChars false n.natAbs rest hb]
          have hval : (if false then -((n.natAbs : Int)) else ((n.natAbs : Int))) =
              n := by
            rw [if_neg (by simp)]
            omega
          rw [hval]
      | str s =>
        rw [serialize_str, List.cons_append, parseVal_succ_quote,
          List.append_assoc, List.singleton_append,
          parseStringBody_escapeList]
        rfl
      | arr l =>
        cases l with
        | nil =>
          rw [serialize_arr_nil]
          show parseVal (fuel + 1) ('[' :: ']' :: rest) = some (.arr [], rest)
          rw [parseVal_succ_lbrack, skipWs_not_ws _ (by decide)]
          rfl
        | cons x xs =>
          rw [serialize_arr_cons, List.cons_append, parseVal_succ_lbrack]
          simp only [List.append_assoc, List.singleton_append]
          rw [skipWs_serialize x (serializeArrTail xs ++ ']' :: rest)]
          obtain ⟨c₀, cs₀, hshape₀, hhead₀⟩ := serialize_head x
          rw [hshape₀, List.cons_append,
            arrBranch_default fuel c₀ _ (isValHead_facts hhead₀).2.1,
            ← List.cons_append, ← hshape₀]
          rw [jsonCanonical_arr] at hcan
          rw [jsize_arr] at hsz
          rw [← List.append_assoc, ihQ x xs rest hcan (by omega)]
          rfl
      | obj l =>
        cases l with
        | nil =>
          rw [serialize_obj_nil]
          show parseVal (fuel + 1) ('\x7b' :: '\x7d' :: rest) =
            some (.obj [], rest)
          rw [parseVal_succ_lbrace, skipWs_not_ws _ (by decide)]
          rfl
        | cons kv tail =>
          obtain ⟨k, v⟩ := kv
          rw [jsonCanonical_obj] at hcan
          rw [jsize_obj] at hsz
          rw [jsizeMembers_cons] at hsz
          have hR := ihR (k, v) tail [] rest (by simpa using hcan)
            (by rw [jsizeMembers_cons]; omega)
          simp only [serializeMember_eq, List.append_assoc, List.cons_append,
            List.nil_append, List.singleton_append] at hR
          rw [serialize_obj_cons, List.cons_append, parseVal_succ_lbrace,
            serializeMember_eq]
          simp only [List.append_assoc, List.cons_append, List.nil_append,
            List.singleton_append]
          rw [skipWs_not_ws _ (by decide),
            objBranch_default fuel '"' _ (by decide), hR]
          rfl
    · -- parseElems round-trips a non-empty element list
      intro x xs rest hcan hsz
      rw [jsonListCanonical_cons, Bool.and_eq_true] at hcan
      rw [jsizeElems_cons] at hsz
      have hP := ihP x (serializeArrTail xs ++ ']' :: rest) hcan.1 (by omega)
        (numBoundary_arrTail xs rest)
      rw [List.append_assoc, parseElems_step fuel _ x _ hP, skipWs_arrTail]
      cases xs with
      | nil =>
        rw [serializeArrTail_nil]
        rfl
      | cons y ys =>
        rw [serializeArrTail_cons, List.cons_append]
        show (parseElems fuel
            (skipWs ((serialize y ++ serializeArrTail ys) ++ ']' :: rest))).map
            (fun p => (x :: p.1, p.2)) = some (x :: y :: ys, rest)
        rw [List.append_assoc, skipWs_serialize, ← List.append_assoc,
          ihQ y ys rest hcan.2 (by omega)]
        rfl
    · -- parseMembers round-trips a non-empty member list
      intro kv tail acc rest hsorted hsz
      obtain ⟨k, v⟩ := kv
      rw [jsizeMembers_cons] at hsz
      have hsz' : 1 + jsize v + jsizeMembers tail ≤ fuel + 1 := hsz
      have hval : jsonCanonical v = true := (jms_extract_val hsorted).1
      have hacc : ∀ p ∈ acc, charListLt p.1 k = true := by
        intro p hp
        exact jms_append_lt hsorted p hp
      -- expose the leading quote, the key, the colon and the value
      have hstr : parseStringBody
          (escapeList k ++ '"' :: (':' ::
            (serialize v ++ (serializeObjTail tail ++ '\x7d' :: rest)))) =
          some (k, ':' ::
            (serialize v ++ (serializeObjTail tail ++ '\x7d' :: rest))) :=
        parseStringBody_escapeList k _
      rw [serializeMember_eq]
      simp only [List.cons_append, List.append_assoc, List.nil_append]
      rw [parseMembers_step fuel acc _ k _ hstr]
      rw [skipWs_not_ws _ (by decide)]
      show (match parseVal fuel
          (skipWs (serialize v ++ (serializeObjTail tail ++ '\x7d' :: rest))) with
        | none => none
        | some (v', cs₄) =>
          match skipWs cs₄ with
          | ',' :: cs₅ => parseMembers fuel (insertMember k v' acc) (skipWs cs₅)
          | '\x7d' :: cs₅ => some (insertMember k v' acc, cs₅)
          | _ => none) = some (acc ++ (k, v) :: tail, rest)
      rw [skipWs_serialize]
      have hPv := ihP v (serializeObjTail tail ++ '\x7d' :: rest) hval
        (by omega) (numBoundary_objTail tail rest)
      rw [hPv]
      show (match skipWs (serializeObjTail tail ++ '\x7d' :: rest) with
        | ',' :: cs₅ => parseMembers fuel (insertMember k v acc) (skipWs cs₅)
        | '\x7d' :: cs₅ => some (insertMember k v acc, cs₅)
        | _ => none) = some (acc ++ (k, v) :: tail, rest)
      rw [skipWs_objTail, insertMember_gt_append hacc]
      cases tail with
      | nil =>
        rw [serializeObjTail_nil]
        show some (acc ++ [(k, v)], rest) = some (acc ++ (k, v) :: [], rest)
        rfl
      | cons kv' tail' =>
        rw [serializeObjTail_cons]
        obtain ⟨k', v'⟩ := kv'
        rw [List.cons_append]
        show parseMembers fuel (acc ++ [(k, v)])
            (skipWs ((serializeMember (k', v') ++ serializeObjTail tail') ++
              '\x7d' :: rest)) =
          some (acc ++ (k, v) :: (k', v') :: tail', rest)
        rw [List.append_assoc, serializeMember_eq, List.cons_append,
          skipWs_not_ws _ (by decide), ← List.cons_append, ← serializeMember_eq,
          ← List.append_assoc]
        have hrec := ihR (k', v') tail' (acc ++ [(k, v)]) rest
          (by rw [List.append_assoc, List.singleton_append]; exact hsorted)
          (by omega)
        rw [hrec, List.append_assoc, List.singleton_append]

theorem jsonCanonical_null : jsonCanonical .null = true := by
  rw [jsonCanonical.eq_def]

theorem jsonCanonical_bool (b : Bool) : jsonCanonical (.bool b) = true := by
  rw [jsonCanonical.eq_def]

theorem jsonCanonical_num (n : Int) : jsonCanonical (.num n) = true := by
  rw [jsonCanonical.eq_def]

theorem jsonCanonical_str (s : List Char) : jsonCanonical (.str s) = true := by
  rw [jsonCanonical.eq_def]

theorem jsonListCanonical_nil : jsonListCanonical [] = true := by
  rw [jsonListCanonical.eq_def]

theorem jms_nil : jsonMembersSortedCanonical [] = true := by
  rw [jsonMembersSortedCanonical.eq_def]

theorem jsize_null : jsize .null = 1 := by
  rw [jsize.eq_def]

theorem jsize_bool (b : Bool) : jsize (.bool b) = 1 := by
  rw [jsize.eq_def]

theorem jsize_num (n : Int) : jsize (.num n) = 1 := by
  rw [jsize.eq_def]

theorem jsize_str (s : List Char) : jsize (.str s) = 1 := by
  rw [jsize.eq_def]

theorem jsizeElems_nil : jsizeElems [] = 1 := by
  rw [jsizeElems.eq_def]

theorem jsizeMembers_nil : jsizeMembers [] = 1 := by
  rw [jsizeMembers.eq_def]

theorem jsizeElems_pos (xs : List Json) : 1 ≤ jsizeElems xs := by
  cases xs with
  | nil => rw [jsizeElems_nil]
  | cons x xs => rw [jsizeElems_cons]; omega

theorem jsizeMembers_pos (ms : List (List Char × Json)) :
    1 ≤ jsizeMembers ms := by
  cases ms with
  | nil => rw [jsizeMembers_nil]
  | cons kv rest => rw [jsizeMembers_cons]; omega

theorem serialize_length_pos (v : Json) : 1 ≤ (serialize v).length := by
  obtain ⟨c, cs', h, -⟩ := serialize_head v
  rw [h]
  simp

theorem serializeMember_length (kv : List Char × Json) :
    (serializeMember kv).length =
      3 + (escapeList kv.1).length + (serialize kv.2).length := by
  obtain ⟨k, v⟩ := kv
  rw [serializeMember_eq]
  simp only [List.length_cons, List.length_append, List.length_nil]
  omega

/-- The fuel a serialized value needs is within twice its text length, so
`parseJson`'s fuel `2·length + 2` always suffices. -/
theorem jsize_le_serialize (fuel : Nat) :
    (∀ v, jsize v ≤ fuel → jsize v ≤ 2 * (serialize v).length) ∧
    (∀ xs, jsizeElems xs ≤ fuel →
      jsizeElems xs ≤ 2 * (serializeArrTail xs).length + 1) ∧
    (∀ ms, jsizeMembers ms ≤ fuel →
      jsizeMembers ms ≤ 2 * (serializeObjTail ms).length + 1) := by
  induction fuel with
  | zero =>
    refine ⟨?_, ?_, ?_⟩
    · intro v hv; have := jsize_pos v; omega
    · intro xs hxs; have := jsizeElems_pos xs; omega
    · intro ms hms; have := jsizeMembers_pos ms; omega
  | succ fuel ih =>
    obtain ⟨ihP, ihQ, ihR⟩ := ih
    refine ⟨?_, ?_, ?_⟩
    · intro v hv
      cases v with
      | null => rw [jsize_null]; have := serialize_length_pos .null; omega
      | bool b => rw [jsize_bool]; have := serialize_length_pos (.bool b); omega
      | num n => rw [jsize_num]; have := serialize_length_pos (.num n); omega
      | str s => rw [jsize_str]; have := serialize_length_pos (.str s); omega
      | arr l =>
        cases l with
        | nil =>
          rw [jsize_arr, jsizeElems_nil, serialize_arr_nil]
          decide
        | cons x xs =>
          rw [jsize_arr, jsizeElems_cons] at hv ⊢
          have hx1 := jsize_pos x
          have hxs1 := jsizeElems_pos xs
          have b1 := ihP x (by omega)
          have b2 := ihQ xs (by omega)
          rw [serialize_arr_cons]
          simp only [List.length_cons, List.length_append,
            List.length_singleton]
          omega
      | obj l =>
        cases l with
        | nil =>
          rw [jsize_obj, jsizeMembers_nil, serialize_obj_nil]
          decide
        | cons kv rest =>
          rw [jsize_obj, jsizeMembers_cons] at hv ⊢
          have hx1 := jsize_pos kv.2
          have hr1 := jsizeMembers_pos rest
          have b1 := ihP kv.2 (by omega)
          have b2 := ihR rest (by omega)
          rw [serialize_obj_cons]
          simp only [List.length_cons, List.length_append,
            List.length_singleton, serializeMember_length]
          omega
    · intro xs hxs
      cases xs with
      | nil => rw [jsizeElems_nil]; omega
      | cons x xs =>
        rw [jsizeElems_cons] at hxs ⊢
        have hx1 := jsize_pos x
        have hxs1 := jsizeElems_pos xs
        have b1 := ihP x (by omega)
        have b2 := ihQ xs (by omega)
        rw [serializeArrTail_cons]
        simp only [List.length_cons, List.length_append]
        omega
    · intro ms hms
      cases ms with
      | nil => rw [jsizeMembers_nil]; omega
      | cons kv rest =>
        rw [jsizeMembers_cons] at hms ⊢
        have hx1 := jsize_pos kv.2
        have hr1 := jsizeMembers_pos rest
        have b1 := ihP kv.2 (by omega)
        have b2 := ihR rest (by omega)
        rw [serializeObjTail_cons]
        simp only [List.length_cons, List.length_append,
          serializeMember_length]
        omega

theorem jsize_le_two_len (v : Json) :
    jsize v ≤ 2 * (serialize v).length := by
  exact (jsize_le_serialize (jsize v)).1 v le_rfl

/-- `parseJson` inverts `serialize` on canonical values. -/
theorem parseJson_serialize (v : Json) (hc : jsonCanonical v = true) :
    parseJson (serialize v) = some v := by
  rw [parseJson]
  have hsk : skipWs (serialize v) = serialize v := by
    have h := skipWs_serialize v []
    simpa using h
  rw [hsk]
  have hP := (parser_roundtrip (2 * (serialize v).length + 2)).1 v [] hc
    (by have := jsize_le_two_len v; omega) rfl
  rw [List.append_nil] at hP
  rw [hP]
  rfl

theorem parseMembers_succ_eq (fuel : Nat) (acc : List (List Char × Json))
    (cs : List Char) :
    parseMembers (fuel + 1) acc cs =
      (match cs with
       | '"' :: cs₁ =>
         match parseStringBody cs₁ with
         | none => none
         | some (k, cs₂) =>
           match skipWs cs₂ with
           | ':' :: cs₃ =>
             match parseVal fuel (skipWs cs₃) with
             | none => none
             | some (v, cs₄) =>
               match skipWs cs₄ with
               | ',' :: cs₅ =>
                 parseMembers fuel (insertMember k v acc) (skipWs cs₅)
               | '\x7d' :: cs₅ => some (insertMember k v acc, cs₅)
               | _ => none
           | _ => none
       | _ => none) := rfl

theorem parseNumber_out {neg : Bool} {cs : List Char} {v : Json}
    {rest : List Char} (h : parseNumber neg cs = some (v, rest)) :
    ∃ n : Int, v = .num n := by
  rw [parseNumber] at h
  split at h
  · exact Option.noConfusion h
  · split at h
    · split at h
      · exact Option.noConfusion h
      · injection h with h'
        injection h' with hv _
        exact ⟨_, hv.symm⟩
    · injection h with h'
      injection h' with hv _
      exact ⟨_, hv.symm⟩

/-- Values produced by the decoder satisfy the canonical-shape invariant:
object member lists come out strictly key-sorted at every level. -/
theorem parser_canonical (fuel : Nat) :
    (∀ cs v rest, parseVal fuel cs = some (v, rest) →
      jsonCanonical v = true) ∧
    (∀ cs vs rest, parseElems fuel cs = some (vs, rest) →
      jsonListCanonical vs = true) ∧
    (∀ acc cs ms rest, jsonMembersSortedCanonical acc = true →
      parseMembers fuel acc cs = some (ms, rest) →
      jsonMembersSortedCanonical ms = true) := by
  induction fuel with
  | zero =>
    refine ⟨?_, ?_, ?_⟩
    · intro cs v rest h; exact Option.noConfusion h
    · intro cs vs rest h; exact Option.noConfusion h
    · intro acc cs ms rest _ h; exact Option.noConfusion h
  | succ fuel ih =>
    obtain ⟨ihP, ihQ, ihR⟩ := ih
    refine ⟨?_, ?_, ?_⟩
    · intro cs v rest h
      cases cs with
      | nil => exact Option.noConfusion h
      | cons c t =>
        rw [parseVal_succ_cons] at h
        by_cases h1 : c = 'n'
        · rw [if_pos h1] at h
          split at h
          · injection h with h'
            injection h' with hv _
            rw [← hv]
            exact jsonCanonical_null
          · exact Option.noConfusion h
        · rw [if_neg h1] at h
          by_cases h2 : c = 't'
          · rw [if_pos h2] at h
            split at h
            · injection h with h'
              injection h' with hv _
              rw [← hv]
              exact jsonCanonical_bool true
            · exact Option.noConfusion h
          · rw [if_neg h2] at h
            by_cases h3 : c = 'f'
            · rw [if_pos h3] at h
              split at h
              · injection h with h'
                injection h' with hv _
                rw [← hv]
                exact jsonCanonical_bool false
              · exact Option.noConfusion h
            · rw [if_neg h3] at h
              by_cases h4 : c = '"'
              · rw [if_pos h4] at h
                cases hps : parseStringBody t with
                | none => rw [hps] at h; exact Option.noConfusion h
                | some p =>
                  rw [hps] at h
                  have h' : some (Json.str p.1, p.2) = some (v, rest) := h
                  injection h' with h''
                  injection h'' with hv _
                  rw [← hv]
                  exact jsonCanonical_str p.1
              · rw [if_neg h4] at h
                by_cases h5 : c = '-'
                · rw [if_pos h5] at h
                  obtain ⟨n, hv⟩ := parseNumber_out h
                  rw [hv]
                  exact jsonCanonical_num n
                · rw [if_neg h5] at h
                  by_cases h6 : isDigitChar c = true
                  · rw [if_pos h6] at h
                    obtain ⟨n, hv⟩ := parseNumber_out h
                    rw [hv]
                    exact jsonCanonical_num n
                  · rw [if_neg h6] at h
                    by_cases h7 : c = '['
                    · rw [if_pos h7] at h
                      split at h
                      · injection h with h'
                        injection h' with hv _
                        rw [← hv, jsonCanonical_arr]
                        exact jsonListCanonical_nil
                      · rename_i r1 hne
                        cases hpe : parseElems fuel (skipWs t) with
                        | none => rw [hpe] at h; exact Option.noConfusion h
                        | some p =>
                          rw [hpe] at h
                          have h' : some (Json.arr p.1, p.2) = some (v, rest) :=
                            h
                          injection h' with h''
                          injection h'' with hv _
                          rw [← hv, jsonCanonical_arr]
                          exact ihQ (skipWs t) p.1 p.2 hpe
                    · rw [if_neg h7] at h
                      by_cases h8 : c = '\x7b'
                      · rw [if_pos h8] at h
                        split at h
                        · injection h with h'
                          injection h' with hv _
                          rw [← hv, jsonCanonical_obj]
                          exact jms_nil
                        · rename_i r1 hne
                          cases hpm : parseMembers fuel [] (skipWs t) with
                          | none => rw [hpm] at h; exact Option.noConfusion h
                          | some p =>
                            rw [hpm] at h
                            have h' : some (Json.obj p.1, p.2) =
                                some (v, rest) := h
                            injection h' with h''
                            injection h'' with hv _
                            rw [← hv, jsonCanonical_obj]
                            exact ihR [] (skipWs t) p.1 p.2 jms_nil hpm
                      · rw [if_neg h8] at h
                        exact Option.noConfusion h
    · intro cs vs rest h
      rw [parseElems_succ] at h
      cases hpv : parseVal fuel cs with
      | none => rw [hpv] at h; exact Option.noConfusion h
      | some p =>
        obtain ⟨v, r⟩ := p
        rw [hpv] at h
        have hv := ihP cs v r hpv
        have h₂ : (match skipWs r with
            | ',' :: rest₂ =>
              (parseElems fuel (skipWs rest₂)).map (fun p => (v :: p.1, p.2))
            | ']' :: rest₂ => some ([v], rest₂)
            | _ => none) = some (vs, rest) := h
        split at h₂
        · rename_i rest₂ hsk
          cases hpe : parseElems fuel (skipWs rest₂) with
          | none => rw [hpe] at h₂; exact Option.noConfusion h₂
          | some q =>
            rw [hpe] at h₂
            have h' : some (v :: q.1, q.2) = some (vs, rest) := h₂
            injection h' with h''
            injection h'' with hvs _
            rw [← hvs, jsonListCanonical_cons, hv,
              ihQ (skipWs rest₂) q.1 q.2 hpe]
            rfl
        · rename_i rest₂ hsk
          injection h₂ with h'
          injection h' with hvs _
          rw [← hvs, jsonListCanonical_cons, hv, jsonListCanonical_nil]
          rfl
        · exact Option.noConfusion h₂
    · intro acc cs ms rest hacc h
      rw [parseMembers_succ_eq] at h
      split at h
      · split at h
        · exact Option.noConfusion h
        · rename_i k cs₂ hstr
          split at h
          · split at h
            · exact Option.noConfusion h
            · rename_i cs₃ hsk v cs₄ hpv
              have hvcan := ihP _ _ _ hpv
              split at h
              · exact ihR _ _ _ _ (insertMember_jms hacc hvcan) h
              · injection h with h'
                injection h' with hms _
                rw [← hms]
                exact insertMember_jms hacc hvcan
              · exact Option.noConfusion h
          · exact Option.noConfusion h
      · exact Option.noConfusion h

/-- What `parseJson` returns is canonical. -/
theorem parseJson_canonical {cs : List Char} {v : Json}
    (h : parseJson cs = some v) : jsonCanonical v = true := by
  rw [parseJson] at h
  split at h
  · rename_i p heq
    split at h
    · injection h with hv
      rw [← hv]
      exact (parser_canonical (2 * cs.length + 2)).1 _ _ _ heq
    · exact Option.noConfusion h
  · exact Option.noConfusion h

theorem hexDigitChar_ne_nl {n : Nat} (h : n < 16) : hexDigitChar n ≠ '\n' := by
  intro hc
  have hv := hexVal_hexDigitChar h
  rw [hc] at hv
  rw [show hexVal '\n' = none from by decide] at hv
  exact Option.noConfusion hv

theorem escapeChar_no_nl (c : Char) : '\n' ∉ escapeChar c := by
  rw [escapeChar]
  split_ifs with h1 h2 h3 h4 h5 h6 h7 h8 h9 h10 h11
  · decide
  · decide
  · decide
  · decide
  · decide
  · intro hmem
    simp only [List.mem_cons, List.not_mem_nil, or_false] at hmem
    rcases hmem with hm | hm | hm | hm | hm | hm
    · exact absurd hm (by decide)
    · exact absurd hm (by decide)
    · exact absurd hm (by decide)
    · exact absurd hm (by decide)
    · exact hexDigitChar_ne_nl (by omega) hm.symm
    · exact hexDigitChar_ne_nl (Nat.mod_lt _ (by omega)) hm.symm
  · decide
  · decide
  · decide
  · decide
  · decide
  · intro hmem
    simp only [List.mem_singleton] at hmem
    have : c.toNat = 10 := by rw [← hmem]; decide
    omega

theorem escapeList_no_nl (s : List Char) : '\n' ∉ escapeList s := by
  induction s with
  | nil => intro hm; exact List.not_mem_nil _ hm
  | cons c cs ih =>
    intro hm
    rcases List.mem_append.mp hm with hm | hm
    · exact escapeChar_no_nl c hm
    · exact ih hm

theorem natToChars_no_nl (n : Nat) : '\n' ∉ natToChars n := by
  obtain ⟨c, cs, hshape, -, -, hall⟩ := natToChars_shape n
  intro hm
  rw [hshape] at hm
  have := hall '\n' hm
  exact absurd this (by decide)

theorem intToChars_no_nl (n : Int) : '\n' ∉ intToChars n := by
  rw [intToChars]
  split
  · intro hm
    rcases List.mem_cons.mp hm with hm | hm
    · exact absurd hm (by decide)
    · exact natToChars_no_nl _ hm
  · exact natToChars_no_nl _

theorem serializeMember_no_nl (kv : List Char × Json)
    (h : '\n' ∉ serialize kv.2) : '\n' ∉ serializeMember kv := by
  obtain ⟨k, v⟩ := kv
  rw [serializeMember_eq]
  intro hmem
  rcases List.mem_cons.mp hmem with hm | hm
  · exact absurd hm (by decide)
  · rcases List.mem_append.mp hm with hm | hm
    · rcases List.mem_append.mp hm with hm | hm
      · exact escapeList_no_nl k hm
      · exact absurd hm (by decide)
    · exact h hm

/-- Serialized JSON never contains a raw newline, so each record is one
NDJSON line. -/
theorem serialize_no_nl (fuel : Nat) :
    (∀ v, jsize v ≤ fuel → '\n' ∉ serialize v) ∧
    (∀ xs, jsizeElems xs ≤ fuel → '\n' ∉ serializeArrTail xs) ∧
    (∀ ms, jsizeMembers ms ≤ fuel → '\n' ∉ serializeObjTail ms) := by
  induction fuel with
  | zero =>
    refine ⟨?_, ?_, ?_⟩
    · intro v hv; have := jsize_pos v; omega
    · intro xs hxs; have := jsizeElems_pos xs; omega
    · intro ms hms; have := jsizeMembers_pos ms; omega
  | succ fuel ih =>
    obtain ⟨ihP, ihQ, ihR⟩ := ih
    refine ⟨?_, ?_, ?_⟩
    · intro v hv
      cases v with
      | null => rw [serialize_null]; decide
      | bool b => cases b with
        | true => rw [serialize_true]; decide
        | false => rw [serialize_false]; decide
      | num n => rw [serialize_num]; exact intToChars_no_nl n
      | str s =>
        rw [serialize_str]
        intro hm
        rcases List.mem_cons.mp hm with hm | hm
        · exact absurd hm (by decide)
        · rcases List.mem_append.mp hm with hm | hm
          · exact escapeList_no_nl s hm
          · exact absurd hm (by decide)
      | arr l =>
        cases l with
        | nil => rw [serialize_arr_nil]; decide
        | cons x xs =>
          rw [jsize_arr, jsizeElems_cons] at hv
          have hx1 := jsize_pos x
          have hxs1 := jsizeElems_pos xs
          rw [serialize_arr_cons]
          intro hm
          rcases List.mem_cons.mp hm with hm | hm
          · exact absurd hm (by decide)
          · rcases List.mem_append.mp hm with hm | hm
            · rcases List.mem_append.mp hm with hm | hm
              · exact ihP x (by omega) hm
              · exact ihQ xs (by omega) hm
            · exact absurd hm (by decide)
      | obj l =>
        cases l with
        | nil => rw [serialize_obj_nil]; decide
        | cons kv rest =>
          rw [jsize_obj, jsizeMembers_cons] at hv
          have hx1 := jsize_pos kv.2
          have hr1 := jsizeMembers_pos rest
          rw [serialize_obj_cons]
          intro hm
          rcases List.mem_cons.mp hm with hm | hm
          · exact absurd hm (by decide)
          · rcases List.mem_append.mp hm with hm | hm
            · rcases List.mem_append.mp hm with hm | hm
              · exact serializeMember_no_nl kv (ihP kv.2 (by omega)) hm
              · exact ihR rest (by omega) hm
            · exact absurd hm (by decide)
    · intro xs hxs
      cases xs with
      | nil => rw [serializeArrTail_nil]; intro hm; exact List.not_mem_nil _ hm
      | cons x xs =>
        rw [jsizeElems_cons] at hxs
        have hx1 := jsize_pos x
        have hxs1 := jsizeElems_pos xs
        rw [serializeArrTail_cons]
        intro hm
        rcases List.mem_cons.mp hm with hm | hm
        · exact absurd hm (by decide)
        · rcases List.mem_append.mp hm with hm | hm
          · exact ihP x (by omega) hm
          · exact ihQ xs (by omega) hm
    · intro ms hms
      cases ms with
      | nil => rw [serializeObjTail_nil]; intro hm; exact List.not_mem_nil _ hm
      | cons kv rest =>
        rw [jsizeMembers_cons] at hms
        have hx1 := jsize_pos kv.2
        have hr1 := jsizeMembers_pos rest
        rw [serializeObjTail_cons]
        intro hm
        rcases List.mem_cons.mp hm with hm | hm
        · exact absurd hm (by decide)
        · rcases List.mem_append.mp hm with hm | hm
          · exact serializeMember_no_nl kv (ihP kv.2 (by omega)) hm
          · exact ihR rest (by omega) hm

theorem serialize_no_nl_all (v : Json) : '\n' ∉ serialize v :=
  (serialize_no_nl (jsize v)).1 v le_rfl

theorem encodeLine_no_nl (m : EncMessage) : '\n' ∉ encodeLine m := by
  rw [encodeLine]
  cases hp : parseJson m.data with
  | some v => exact serialize_no_nl_all v
  | none => exact serialize_no_nl_all (envelopeJson m)

theorem splitNl_line (line rest : List Char) (h : '\n' ∉ line) :
    splitNl (line ++ '\n' :: rest) = line :: splitNl rest := by
  induction line with
  | nil =>
    rw [List.nil_append, splitNl]
    rw [if_pos rfl]
  | cons c cs ih =>
    have hc : c ≠ '\n' := fun hh => h (hh ▸ List.mem_cons_self c cs)
    rw [List.cons_append, splitNl, if_neg hc,
      ih (fun hm => h (List.mem_cons_of_mem c hm))]

theorem splitNl_batch (msgs : List EncMessage) :
    splitNl (encodeBatchNDJSON msgs) = msgs.map encodeLine := by
  induction msgs with
  | nil => rfl
  | cons m ms ih =>
    show splitNl ((encodeLine m ++ ['\n']) ++ encodeBatchNDJSON ms) =
      encodeLine m :: ms.map encodeLine
    rw [List.append_assoc, List.singleton_append,
      splitNl_line _ _ (encodeLine_no_nl m), ih]

theorem envelopeJson_canonical (m : EncMessage) :
    jsonCanonical (envelopeJson m) = true := by
  rw [envelopeJson, jsonCanonical_obj]
  refine jms_cons_intro (jsonCanonical_str m.data) ?_ ?_
  · refine jms_cons_intro (jsonCanonical_str m.source) ?_ ?_
    · refine jms_cons_intro (jsonCanonical_str m.timestampRFC3339Nano)
        jms_nil ?_
      intro kv' rest' h
      exact List.noConfusion h
    · intro kv' rest' h
      injection h with h1 h2
      rw [← h1]
      exact (by decide : charListLt ("source".data) ("timestamp".data) = true)
  · intro kv' rest' h
    injection h with h1 h2
    rw [← h1]
    exact (by decide : charListLt ("message".data) ("source".data) = true)

/-- **C5.** For every message whose payload parses as JSON, `sendBatch`
emits the canonical re-serialization of the parsed value as one NDJSON
line (no raw newline in it), the encoding is deterministic in the payload,
and re-parsing the emitted line recovers a value deeply equal to the parse
of the original payload — in particular, splitting an all-valid-JSON batch
body at newlines and parsing each line reproduces the original parses.
For every payload that is not valid JSON, the emitted line is the JSON
object with exactly the three fields `message`, `source`, `timestamp`. -/
theorem c5_ndjson_encoding (m mj mj' menv : EncMessage) (v : Json)
    (msgs : List EncMessage)
    (hj : parseJson mj.data = some v)
    (heq : mj.data = mj'.data)
    (henv : parseJson menv.data = none)
    (hall : ∀ x ∈ msgs, (parseJson x.data).isSome = true) :
    (encodeLine mj = serialize v ∧ parseJson (encodeLine mj) = some v) ∧
    encodeLine mj = encodeLine mj' ∧
    '\n' ∉ encodeLine m ∧
    splitNl (encodeBatchNDJSON msgs) = msgs.map encodeLine ∧
    (splitNl (encodeBatchNDJSON msgs)).map parseJson =
      msgs.map (fun x => parseJson x.data) ∧
    (encodeLine menv = serialize (envelopeJson menv) ∧
      parseJson (encodeLine menv) = some (envelopeJson menv) ∧
      envelopeJson menv = .obj [("message".data, .str menv.data),
        ("source".data, .str menv.source),
        ("timestamp".data, .str menv.timestampRFC3339Nano)]) := by
  have hcan : jsonCanonical v = true := parseJson_canonical hj
  refine ⟨⟨?_, ?_⟩, ?_, encodeLine_no_nl m, splitNl_batch msgs, ?_,
    ?_, ?_, rfl⟩
  · rw [encodeLine, hj]
  · rw [encodeLine, hj]
    exact parseJson_serialize v hcan
  · rw [encodeLine, encodeLine, hj, ← heq, hj]
  · rw [splitNl_batch, List.map_map]
    refine List.map_congr_left ?_
    intro x hx
    obtain ⟨w, hw⟩ := Option.isSome_iff_exists.mp (hall x hx)
    show parseJson (encodeLine x) = parseJson x.data
    rw [encodeLine, hw]
    show parseJson (serialize w) = some w
    exact parseJson_serialize w (parseJson_canonical hw)
  · rw [encodeLine, henv]
  · rw [encodeLine, henv]
    exact parseJson_serialize _ (envelopeJson_canonical menv)

theorem c5_ndjson_encoding_witness :
    parseJson c5SampleJson.data = some (.arr [.num 1, .num 2]) ∧
    c5SampleJson.data = c5SampleJson'.data ∧
    parseJson c5SampleText.data = none ∧
    (∀ x ∈ [c5SampleJson, c5SampleJson'],
      (parseJson x.data).isSome = true) ∧
    ((encodeLine c5SampleJson = serialize (.arr [.num 1, .num 2]) ∧
      parseJson (encodeLine c5SampleJson) = some (.arr [.num 1, .num 2])) ∧
     encodeLine c5SampleJson = encodeLine c5SampleJson' ∧
     '\n' ∉ encodeLine c5SampleText ∧
     splitNl (encodeBatchNDJSON [c5SampleJson, c5SampleJson']) =
       [c5SampleJson, c5SampleJson'].map encodeLine ∧
     (splitNl (encodeBatchNDJSON [c5SampleJson, c5SampleJson'])).map
         parseJson =
       [c5SampleJson, c5SampleJson'].map (fun x => parseJson x.data) ∧
     (encodeLine c5SampleText = serialize (envelopeJson c5SampleText) ∧
      parseJson (encodeLine c5SampleText) =
        some (envelopeJson c5SampleText) ∧
      envelopeJson c5SampleText =
        .obj [("message".data, .str c5SampleText.data),
          ("source".data, .str c5SampleText.source),
          ("timestamp".data, .str c5SampleText.timestampRFC3339Nano)])) :=
  ⟨rfl, rfl, rfl, by decide,
   c5_ndjson_encoding c5SampleText c5SampleJson c5SampleJson' c5SampleText
     (.arr [.num 1, .num 2]) [c5SampleJson, c5SampleJson']
     rfl rfl rfl (by decide)⟩

end ByteFreezerProxy
